import Mathlib

/-!
Verification of the spreadsheet reconciliation subsystem of Market_SM
(apps/pavilions: pavilion_name_normalizer.py, meter_importer.py,
contracts_importer.py, models.py).

The Python sources are shallowly embedded below.  Strings are Lean `String`s
manipulated through helpers that mirror the Python primitives actually used
(`str.strip`, `str.split`, `in`, `str.lower().startswith`, `re.sub(r"\s+","")`,
the two regexes, `str.isdigit`).  The relational store (Django ORM) is an
explicit `Store` record of entity lists; `get_or_create` is first-match-or-
append, `save` writes back by primary key, which is the collaborator contract
the spec assigns to the external store.  Decimal readings are modelled as `ℚ`
(Decimal arithmetic on the imported values is exact), dates as `Nat`.
-/

namespace MarketSM

/-! ### Python string primitives -/

/-- Characters treated as whitespace by the embedded `strip` / `\s`. -/
def isWs (c : Char) : Bool := c.isWhitespace

/-- Remove leading and trailing whitespace from a character list. -/
def trimChars (cs : List Char) : List Char :=
  ((cs.dropWhile isWs).reverse.dropWhile isWs).reverse

/-- Python `s.strip()`. -/
def pyStrip (s : String) : String := ⟨trimChars s.data⟩

/-- Python `re.sub(r"\s+", "", s)`: drop every whitespace character. -/
def collapseWs (s : String) : String := ⟨s.data.filter (fun c => !(isWs c))⟩

/-- Python `c in s` for a single character. -/
def hasChar (s : String) (c : Char) : Bool := s.data.contains c

/-- Python `sub in s` on character lists. -/
def hasSubChars : List Char → List Char → Bool
  | cs, sub =>
    if sub.isPrefixOf cs then true
    else match cs with
      | [] => false
      | _ :: rest => hasSubChars rest sub

/-- Python `sub in s`. -/
def hasSub (s sub : String) : Bool := hasSubChars s.data sub.data

/-- Characters before the first occurrence of `sub`; the whole list when `sub`
is absent.  Mirrors Python `s.split(sub)[0]`. -/
def beforeSubChars : List Char → List Char → List Char
  | cs, sub =>
    if sub.isPrefixOf cs then []
    else match cs with
      | [] => []
      | c :: rest => c :: beforeSubChars rest sub

/-- Python `s.split(sub)[0]`. -/
def beforeSub (s sub : String) : String := ⟨beforeSubChars s.data sub.data⟩

/-- Python `s.split(c, 1)[0]` for a one-character separator. -/
def beforeChar (s : String) (c : Char) : String := ⟨s.data.takeWhile (· ≠ c)⟩

/-- Python `s.split(c)` for a one-character separator, on character lists. -/
def pySplitChar (c : Char) : List Char → List (List Char)
  | [] => [[]]
  | x :: rest =>
    let r := pySplitChar c rest
    if x = c then [] :: r
    else match r with
      | h :: t => (x :: h) :: t
      | [] => [[x]]

/-- Python `str.lower()` restricted to the alphabets the importers meet:
ASCII A–Z and Cyrillic А–Я (plus Ё). -/
def lowerChar (c : Char) : Char :=
  if 'A' ≤ c ∧ c ≤ 'Z' then Char.ofNat (c.toNat + 32)
  else if 0x410 ≤ c.toNat ∧ c.toNat ≤ 0x42F then Char.ofNat (c.toNat + 32)
  else if c.toNat = 0x401 then Char.ofNat 0x451
  else c

/-- Python `s.lower()`. -/
def lowerStr (s : String) : String := ⟨s.data.map lowerChar⟩

/-- Python `s[n:]` (by code points). -/
def strDrop (s : String) (n : Nat) : String := ⟨s.data.drop n⟩

/-- Python `s.isdigit()` on the ASCII digits the importers meet:
nonempty and all digits. -/
def isDigitStr (s : String) : Bool := (s ≠ "" : Bool) && s.data.all Char.isDigit

/-- Value of an all-digit string, `int(s)`. -/
def digitsVal (s : String) : Nat :=
  s.data.foldl (fun n c => n * 10 + (c.toNat - '0'.toNat)) 0

/-- Last character of a string, if any. -/
def lastCharIsDigit (s : String) : Bool :=
  match s.data.getLast? with
  | some c => c.isDigit
  | none => false

/-! ### pavilion_name_normalizer.normalize_single_name
(identical code is inlined as `MeterImporter._normalize_single_name`). -/

/-- Lines 10–35 of pavilion_name_normalizer.py: strip, cut at a `" ("`
annotation and strip again, then, when the remainder contains a space and the
token before the first space ends in a digit, keep only that token. -/
def normalize_single_name (name : String) : String :=
  let base := pyStrip name
  let base := if hasSub base " (" then pyStrip (beforeSub base " (") else base
  if hasChar base ' ' then
    let before_space := beforeChar base ' '
    if before_space ≠ "" ∧ lastCharIsDigit before_space then before_space else base
  else base

/-! ### pavilion_name_normalizer.expand_location_to_pavilion_names
(identical code is inlined as `MeterImporter._expand_location_to_pavilion_names`). -/

/-- Group 1 of `re.match(r"^(.+/\s*)(\d+)$", s)`: matches exactly when `s` ends
in a nonempty digit run, preceded by optional whitespace, preceded by `/`, with
at least one character before the `/`; returns everything except the digit
run. -/
def matchSlashDigits (s : String) : Option String :=
  let r := s.data.reverse
  let ds := r.takeWhile Char.isDigit
  if ds.isEmpty then none
  else
    let r2 := r.drop ds.length
    let r3 := r2.drop ((r2.takeWhile isWs).length)
    match r3 with
    | '/' :: r4 => if r4.isEmpty then none else some ⟨r2.reverse⟩
    | _ => none

/-- No-comma branch of the expander (lines 66–72): normalized name plus its
whitespace-collapsed variant when the two differ. -/
def singleNameVariants (t : String) : List String :=
  let n := normalize_single_name t
  let c := collapseWs n
  if n = c then [n] else [n, c]

/-- Lowercased shared-meter marker `"общий "`. -/
def sharedMarker : List Char := "общий ".data

/-- Lines 38–99 of pavilion_name_normalizer.py. -/
def expand_location_to_pavilion_names (location_name : String) : List String :=
  let base := pyStrip location_name
  let base :=
    if List.isPrefixOf sharedMarker (lowerStr base).data then
      let b := pyStrip (strDrop base 6)
      if hasChar b ',' then pyStrip (beforeChar b ',') else b
    else base
  if !(hasChar base ',') then singleNameVariants base
  else
    let parts := ((pySplitChar ',' base.data).map (fun cs => pyStrip ⟨cs⟩)).filter (· ≠ "")
    match parts with
    | [] => []
    | p0 :: rest =>
      let first := normalize_single_name p0
      match matchSlashDigits first with
      | some g1 =>
        let pfx := collapseWs g1
        first ::
          rest.map (fun p =>
            let p := pyStrip p
            if isDigitStr p then pfx ++ p else normalize_single_name p)
      | none => parts.map normalize_single_name

/-! ### Data model (apps/pavilions/models.py)
Entity records carry the fields the importers read or write; `id` is the
primary key, relations are stored as ids.  The relational store is a record of
entity lists plus a fresh-id counter. -/

structure Building where
  id : Nat
  name : String
  deriving Repr, DecidableEq

structure Tenant where
  id : Nat
  name : String
  inn : String
  deriving Repr, DecidableEq

structure Contract where
  id : Nat
  name : String
  deriving Repr, DecidableEq

structure Pavilion where
  id : Nat
  name : String
  building : Nat
  tenant : Option Nat
  contract : Option Nat
  status : String
  deriving Repr, DecidableEq

structure ElectricityMeter where
  id : Nat
  meter_number : String
  serial_number : String
  location : String
  last_verified_hours_ago : Option Nat
  pavilions : List Nat
  deriving Repr, DecidableEq

/-- Reading of a meter; `meter_reading` and `consumption` are Decimal values,
modelled as `ℚ`; `consumption` is nullable. -/
structure ElectricityReading where
  meter : Nat
  date : Nat
  meter_reading : ℚ
  consumption : Option ℚ
  deriving Repr, DecidableEq

structure Store where
  buildings : List Building
  tenants : List Tenant
  contracts : List Contract
  pavilions : List Pavilion
  meters : List ElectricityMeter
  readings : List ElectricityReading
  nextId : Nat
  deriving Repr, DecidableEq

/-! ### ElectricityReading.save (models.py lines 350–373) -/

/-- `ElectricityReading.objects.filter(meter=…, date__lt=…).order_by("-date").first()`:
the earlier-dated reading of the same meter with the maximal date. -/
def previousReading (rs : List ElectricityReading) (m d : Nat) : Option ElectricityReading :=
  (rs.filter (fun r => r.meter == m && decide (r.date < d))).foldl
    (fun acc r =>
      match acc with
      | none => some r
      | some b => if b.date < r.date then some r else acc) none

/-- Body of `ElectricityReading.save`: when `consumption` is falsy (null or 0)
compute it as the difference to the previous reading, or 0 without one. -/
def readingSave (rs : List ElectricityReading) (r : ElectricityReading) : ElectricityReading :=
  if r.consumption = none ∨ r.consumption = some 0 then
    match previousReading rs r.meter r.date with
    | some p => { r with consumption := some (r.meter_reading - p.meter_reading) }
    | none => { r with consumption := some 0 }
  else r

/-- `ElectricityReading.objects.create(meter=…, date=…, meter_reading=…)`:
`save` runs on the fresh object (consumption unset) and the row is inserted. -/
def createReading (s : Store) (m d : Nat) (v : ℚ) : Store :=
  { s with readings := s.readings ++ [readingSave s.readings ⟨m, d, v, none⟩] }

/-! ### MeterImporter (services/meter_importer.py) -/

/-- In-memory importer state: `self.errors` and `self.stats` of MeterImporter.
These live outside the database, so a transaction rollback does not restore
them. -/
structure MState where
  errors : List String
  sheets_processed : Nat
  meters_created : Nat
  meters_updated : Nat
  readings_created : Nat
  unmatched : List String
  deriving Repr, DecidableEq

/-- One spreadsheet row of a readings sheet (the five required columns). -/
structure MRow where
  meter_number : String
  serial_number : String
  reading : String
  location : String
  hours_ago : String
  deriving Repr, DecidableEq

/-- Candidate pair `(name, re.sub(r"\s+", "", name))` tried by
`_find_pavilions_by_names` (meter_importer.py line 200). -/
def meterCandidates (name : String) : List String := [name, collapseWs name]

/-- Inner candidate loop of `MeterImporter._find_pavilions_by_names`: skip empty
candidates, stop at the first candidate with a store match (`get`, falling back
to `filter(...).first()` on duplicates, is first-match in list order). -/
def meterFindByCandidates (ps : List Pavilion) : List String → Option Pavilion
  | [] => none
  | c :: cs =>
    if c = "" then meterFindByCandidates ps cs
    else
      match ps.find? (fun p => p.name == c) with
      | some p => some p
      | none => meterFindByCandidates ps cs

/-- Outer loop of `_find_pavilions_by_names`, threading `seen_ids`. -/
def meterFindPavilionsGo (ps : List Pavilion) : List String → List Nat → List Pavilion
  | [], _ => []
  | n :: rest, seen =>
    match meterFindByCandidates ps (meterCandidates n) with
    | some p =>
      if seen.contains p.id then meterFindPavilionsGo ps rest seen
      else p :: meterFindPavilionsGo ps rest (p.id :: seen)
    | none => meterFindPavilionsGo ps rest seen

/-- `MeterImporter._find_pavilions_by_names` (lines 194–217). -/
def meterFindPavilions (ps : List Pavilion) (names : List String) : List Pavilion :=
  meterFindPavilionsGo ps names []

/-- `ElectricityMeter.objects.get_or_create(meter_number=…, defaults=…)`:
first match by `meter_number`, or a fresh row built from the defaults. -/
def getOrCreateMeter (s : Store) (mn sn loc : String) (hours : Option Nat) :
    ElectricityMeter × Bool × Store :=
  match s.meters.find? (fun m => m.meter_number == mn) with
  | some m => (m, false, s)
  | none =>
    let m : ElectricityMeter := ⟨s.nextId, mn, sn, loc, hours, []⟩
    (m, true, { s with meters := s.meters ++ [m], nextId := s.nextId + 1 })

/-- `meter.save()`: write the instance back by primary key. -/
def saveMeter (s : Store) (m : ElectricityMeter) : Store :=
  { s with meters := s.meters.map (fun q => if q.id == m.id then m else q) }

/-- First meter with the given `meter_number`. -/
def findMeterByNumber (ms : List ElectricityMeter) (mn : String) : Option ElectricityMeter :=
  ms.find? (fun m => m.meter_number == mn)

/-- Literal stale-communication marker of `_process_reading`. -/
def staleMarker : String := "Не на связи больше 168 часов"

/-- `re.sub(r"[^\d.,]", "", raw).replace(",", ".")`. -/
def cleanReadingText (raw : String) : String :=
  ⟨(raw.data.filter (fun c => c.isDigit || c == '.' || c == ',')).map
    (fun c => if c == ',' then '.' else c)⟩

/-- Python `float` on a cleaned string (digits and dots only): at most one dot
and at least one digit, value read in decimal. -/
def parseFloatQ (s : String) : Option ℚ :=
  match (pySplitChar '.' s.data).map (fun cs => (⟨cs⟩ : String)) with
  | [i] =>
    if isDigitStr i then some (digitsVal i) else none
  | [i, f] =>
    if (i ++ f ≠ "" : Bool) && i.data.all Char.isDigit && f.data.all Char.isDigit then
      some ((digitsVal i : ℚ) + (digitsVal f : ℚ) / ((10 : ℚ) ^ f.length))
    else none
  | _ => none

/-- `MeterImporter._process_reading` (lines 279–324). -/
def processReading (s : Store) (st : MState) (meter : ElectricityMeter) (raw : String)
    (d : Nat) : Store × MState :=
  if hasSub raw staleMarker then
    let mn := meter.meter_number
    (s, { st with errors := st.errors ++ [s!"Счетчик {mn}: {raw}"] })
  else
    let cleaned := cleanReadingText raw
    if cleaned = "" then (s, st)
    else
      match parseFloatQ cleaned with
      | none =>
        let mn := meter.meter_number
        (s, { st with errors := st.errors ++ [s!"Невалидные показания для счетчика {mn}: {raw}"] })
      | some v =>
        if s.readings.any (fun r => r.meter == meter.id && r.date == d) then (s, st)
        else
          (createReading s meter.id d v,
           { st with readings_created := st.readings_created + 1 })

/-- Upsert block of `_process_row` (lines 252–265): `get_or_create` by meter
number, `pavilions.set(…)`, conditional serial overwrite, unconditional
location/hours overwrite, `meter.save()`.  The M2M `set` plus the field
assignments plus `save` are modelled as one write-back of the instance
carrying the new association list and field values.  Returns the saved
instance, the created flag, and the store. -/
def meterRowUpsert (s : Store) (mn sn loc : String) (hours : Option Nat)
    (pavIds : List Nat) : ElectricityMeter × Bool × Store :=
  let gcr := getOrCreateMeter s mn (if sn = "" then "" else sn) loc hours
  let meter1 : ElectricityMeter :=
    { gcr.1 with
      pavilions := pavIds
      serial_number := if sn = "" then gcr.1.serial_number else sn
      location := loc
      last_verified_hours_ago := hours }
  (meter1, gcr.2.1, saveMeter gcr.2.2 meter1)

/-- `MeterImporter._process_row` (lines 219–277). -/
def processMeterRow (s : Store) (st : MState) (row : MRow) (reading_date : Nat) :
    Store × MState :=
  let mn := pyStrip row.meter_number
  let sn := pyStrip row.serial_number
  let raw := pyStrip row.reading
  let loc := pyStrip row.location
  let hrs := pyStrip row.hours_ago
  if mn = "" ∨ loc = "" then (s, st)
  else
    let names := expand_location_to_pavilion_names loc
    let pavs := meterFindPavilions s.pavilions names
    if pavs.isEmpty then
      if loc ≠ "" ∧ !(st.unmatched.contains loc) then
        (s, { st with unmatched := st.unmatched ++ [loc] })
      else (s, st)
    else
      let hours := if hrs ≠ "" ∧ isDigitStr hrs then some (digitsVal hrs) else none
      let up := meterRowUpsert s mn sn loc hours (pavs.map (fun p => p.id))
      let st1 :=
        if up.2.1 then { st with meters_created := st.meters_created + 1 }
        else { st with meters_updated := st.meters_updated + 1 }
      processReading up.2.2 st1 up.1 raw reading_date

/-! ### find_pavilions_by_names (pavilion_name_normalizer.py lines 102–143),
the variant used by ContractsImporter, with an optional building scope. -/

/-- Match of `Pavilion.objects.filter(name=candidate)` optionally restricted by
`filter(building=building)`. -/
def pavMatches (bid : Option Nat) (c : String) (p : Pavilion) : Bool :=
  p.name == c &&
    (match bid with
     | none => true
     | some b => p.building == b)

/-- Candidate list `[name]` plus the whitespace-collapsed variant when it
differs (lines 121–124). -/
def candidatesFor (name : String) : List String :=
  let n := collapseWs name
  if n == name then [name] else [name, n]

/-- Candidate loop of `find_pavilions_by_names` (lines 126–141): empty
candidates are skipped; a match already in `seen_ids` does not stop the
loop. -/
def resolveCandsSeen (ps : List Pavilion) (bid : Option Nat) (seen : List Nat) :
    List String → Option Pavilion
  | [] => none
  | c :: cs =>
    if c = "" then resolveCandsSeen ps bid seen cs
    else
      match ps.find? (pavMatches bid c) with
      | some p => if seen.contains p.id then resolveCandsSeen ps bid seen cs else some p
      | none => resolveCandsSeen ps bid seen cs

/-- Candidate loop with an empty `seen_ids`, the form every ContractsImporter
call ends up in (it always passes a one-element name list). -/
def resolveCands (ps : List Pavilion) (bid : Option Nat) : List String → Option Pavilion
  | [] => none
  | c :: cs =>
    if c = "" then resolveCands ps bid cs
    else
      match ps.find? (pavMatches bid c) with
      | some p => some p
      | none => resolveCands ps bid cs

/-- Name loop of `find_pavilions_by_names`. -/
def fpbnGo (ps : List Pavilion) (bid : Option Nat) : List String → List Nat → List Pavilion
  | [], _ => []
  | n :: rest, seen =>
    if n = "" then fpbnGo ps bid rest seen
    else
      match resolveCandsSeen ps bid seen (candidatesFor n) with
      | some p => p :: fpbnGo ps bid rest (p.id :: seen)
      | none => fpbnGo ps bid rest seen

/-- `find_pavilions_by_names(names, building=…)`. -/
def find_pavilions_by_names (ps : List Pavilion) (names : List String)
    (bid : Option Nat) : List Pavilion :=
  fpbnGo ps bid names []

/-! ### ContractsImporter (services/contracts_importer.py) -/

/-- In-memory state of ContractsImporter: `self.errors` and `self.stats`. -/
structure CState where
  errors : List String
  tenants_created : Nat
  tenants_updated : Nat
  contracts_created : Nat
  contracts_updated : Nat
  pavilions_updated : Nat
  unmatched : List String
  deriving Repr, DecidableEq

/-- One roster row (columns Контрагент, ИНН, Договор, Объект). -/
structure CRow where
  kontragent : String
  inn : String
  dogovor : String
  obj : String
  deriving Repr, DecidableEq

/-- Character class `[А-ЯA-Z0-9]` of `_extract_building_code`. -/
def isCodeChar (c : Char) : Bool :=
  (0x410 ≤ c.toNat && c.toNat ≤ 0x42F) || ('A' ≤ c && c ≤ 'Z') || c.isDigit

/-- Attempted match of `re.search(r"(КК/[А-ЯA-Z0-9]+)", s)` at the current
position: the position must start with `КК/` followed by at least one class
character; the code is `КК/` plus the maximal class-character run. -/
def codeMatchAt (cs : List Char) : Option String :=
  match cs with
  | 'К' :: 'К' :: '/' :: r2 =>
    let run := r2.takeWhile isCodeChar
    if run.isEmpty then none else some ⟨'К' :: 'К' :: '/' :: run⟩
  | _ => none

def extractBuildingCodeAux : List Char → Option String
  | [] => none
  | c :: rest =>
    match codeMatchAt (c :: rest) with
    | some code => some code
    | none => extractBuildingCodeAux rest

/-- `ContractsImporter._extract_building_code` (lines 86–95). -/
def extractBuildingCode (s : String) : Option String := extractBuildingCodeAux s.data

/-- `BUILDING_CODE_MAP` of `_get_building_from_contract`. -/
def BUILDING_CODE_MAP : List (String × String) :=
  [("КК/АП", "Славянский Стан"), ("КК/В", "Вещевой"),
   ("КК/М", "Строительный"), ("КК/МБ", "Строительный")]

def DEFAULT_BUILDING_NAME : String := "Основной рынок"

def unknownCodeMsg (code cn : String) : String :=
  "Неизвестный шифр здания: " ++ code ++ " в договоре \"" ++ cn ++ "\""

/-- Building-name selection of `_get_building_from_contract` (lines 110–117):
mapped name for a known code, default name otherwise, warning when a code was
present but unknown. -/
def buildingNameFromContract (st : CState) (cn : String) : String × CState :=
  match extractBuildingCode cn with
  | some c =>
    match BUILDING_CODE_MAP.find? (fun e => e.1 == c) with
    | some e => (e.2, st)
    | none => (DEFAULT_BUILDING_NAME, { st with errors := st.errors ++ [unknownCodeMsg c cn] })
  | none => (DEFAULT_BUILDING_NAME, st)

/-- `Building.objects.get_or_create(name=…)`. -/
def getOrCreateBuilding (s : Store) (nm : String) : Building × Store :=
  match s.buildings.find? (fun b => b.name == nm) with
  | some b => (b, s)
  | none =>
    let b : Building := ⟨s.nextId, nm⟩
    (b, { s with buildings := s.buildings ++ [b], nextId := s.nextId + 1 })

/-- `ContractsImporter._get_building_from_contract` (lines 97–123). -/
def getBuildingFromContract (s : Store) (st : CState) (cn : String) :
    Building × Store × CState :=
  let pick := buildingNameFromContract st cn
  let bs := getOrCreateBuilding s pick.1
  (bs.1, bs.2, pick.2)

/-- `Tenant.objects.get_or_create(name=…, defaults={"inn": inn})`. -/
def getOrCreateTenant (s : Store) (nm inn : String) : Tenant × Bool × Store :=
  match s.tenants.find? (fun t => t.name == nm) with
  | some t => (t, false, s)
  | none =>
    let t : Tenant := ⟨s.nextId, nm, inn⟩
    (t, true, { s with tenants := s.tenants ++ [t], nextId := s.nextId + 1 })

/-- `tenant.save()`. -/
def saveTenant (s : Store) (t : Tenant) : Store :=
  { s with tenants := s.tenants.map (fun q => if q.id == t.id then t else q) }

/-- `Contract.objects.get_or_create(name=…)`. -/
def getOrCreateContract (s : Store) (nm : String) : Contract × Bool × Store :=
  match s.contracts.find? (fun c => c.name == nm) with
  | some c => (c, false, s)
  | none =>
    let c : Contract := ⟨s.nextId, nm⟩
    (c, true, { s with contracts := s.contracts ++ [c], nextId := s.nextId + 1 })

/-- `pav.save()`. -/
def savePavilion (s : Store) (p : Pavilion) : Store :=
  { s with pavilions := s.pavilions.map (fun q => if q.id == p.id then p else q) }

/-- Name of the building a pavilion currently references (`pav.building.name`). -/
def buildingNameOf (s : Store) (bid : Nat) : String :=
  match s.buildings.find? (fun b => b.id == bid) with
  | some b => b.name
  | none => ""

def movedMsg (nm oldB newB cn : String) : String :=
  "Павильон \x27" ++ nm ++ "\x27 перенесён из \x27" ++ oldB ++ "\x27 в \x27" ++
    newB ++ "\x27 (договор: " ++ cn ++ ")"

/-- Name-resolution loop of `_process_row` (lines 142–165): per name, a lookup
scoped to the derived building, then an unscoped fallback recording a
cross-building-move warning, else the deduplicated unmatched list. -/
def resolveContractNames (s : Store) (st : CState) (b : Building) (cn : String) :
    List String → List Pavilion × CState
  | [] => ([], st)
  | n :: rest =>
    match find_pavilions_by_names s.pavilions [n] (some b.id) with
    | p :: _ =>
      let r := resolveContractNames s st b cn rest
      (p :: r.1, r.2)
    | [] =>
      match find_pavilions_by_names s.pavilions [n] none with
      | p :: _ =>
        let st1 := { st with errors :=
          st.errors ++ [movedMsg n (buildingNameOf s p.building) b.name cn] }
        let r := resolveContractNames s st1 b cn rest
        (p :: r.1, r.2)
      | [] =>
        let st1 :=
          if st.unmatched.contains n then st
          else { st with unmatched := st.unmatched ++ [n] }
        resolveContractNames s st1 b cn rest

/-- Field updates of `_process_row` lines 194–211, condensed: the four
sequential checks each assign one target field when it differs and set
`needs_update`; the result therefore always carries all four target values and
`needs_update` is true iff some field differed. -/
def updatePavilionFields (p : Pavilion) (bId tId cId : Nat) : Pavilion × Bool :=
  ({ p with building := bId, tenant := some tId, contract := some cId, status := "rented" },
   !(p.building == bId && p.tenant == some tId && p.contract == some cId &&
     p.status == "rented"))

/-- Update loop of `_process_row` lines 193–215: save and count only when
`needs_update`. -/
def applyPavilionUpdates (s : Store) (st : CState) (bId tId cId : Nat) :
    List Pavilion → Store × CState
  | [] => (s, st)
  | p :: rest =>
    let u := updatePavilionFields p bId tId cId
    if u.2 then
      applyPavilionUpdates (savePavilion s u.1)
        { st with pavilions_updated := st.pavilions_updated + 1 } bId tId cId rest
    else applyPavilionUpdates s st bId tId cId rest

/-- Tenant upsert of `_process_row` (lines 171–182): `get_or_create` by name
with `inn` default; on an existing tenant, write `inn` only when the row's
`inn` is nonempty and differs. -/
def tenantUpsertPhase (s : Store) (st : CState) (nm inn : String) :
    Tenant × Store × CState :=
  let tgc := getOrCreateTenant s nm inn
  if tgc.2.1 then
    (tgc.1, tgc.2.2, { st with tenants_created := st.tenants_created + 1 })
  else if inn ≠ "" ∧ tgc.1.inn ≠ inn then
    let t1 := { tgc.1 with inn := inn }
    (t1, saveTenant tgc.2.2 t1, { st with tenants_updated := st.tenants_updated + 1 })
  else (tgc.1, tgc.2.2, st)

/-- Contract upsert of `_process_row` (lines 184–191): create only. -/
def contractUpsertPhase (s : Store) (st : CState) (nm : String) :
    Contract × Store × CState :=
  let cgc := getOrCreateContract s nm
  if cgc.2.1 then
    (cgc.1, cgc.2.2, { st with contracts_created := st.contracts_created + 1 })
  else (cgc.1, cgc.2.2, st)

/-- Body of `_process_row` after the empty-field skip (lines 135–215). -/
def processContractRowCore (s : Store) (st : CState)
    (tenant_name inn contract_name pav_str : String) : Store × CState :=
  let bsc := getBuildingFromContract s st contract_name
  let names := expand_location_to_pavilion_names pav_str
  let fr := resolveContractNames bsc.2.1 bsc.2.2 bsc.1 contract_name names
  if fr.1.isEmpty then (bsc.2.1, fr.2)
  else
    let tp := tenantUpsertPhase bsc.2.1 fr.2 tenant_name inn
    let cp := contractUpsertPhase tp.2.1 tp.2.2 contract_name
    applyPavilionUpdates cp.2.1 cp.2.2 bsc.1.id tp.1.id cp.1.id fr.1

/-- `ContractsImporter._process_row` (lines 125–215). -/
def processContractRow (s : Store) (st : CState) (row : CRow) : Store × CState :=
  let tenant_name := pyStrip row.kontragent
  let inn := pyStrip row.inn
  let contract_name := pyStrip row.dogovor
  let pav_str := pyStrip row.obj
  if tenant_name = "" ∨ contract_name = "" ∨ pav_str = "" then (s, st)
  else processContractRowCore s st tenant_name inn contract_name pav_str

/-! ### Transaction boundaries (meter_importer.py lines 126–131,
contracts_importer.py lines 66–68)

`MeterImporter._process_sheet` wraps the row loop of ONE sheet in
`transaction.atomic()`; `_process_row` catches every exception itself, so an
unhandled fault inside the block comes from the iteration.  A sheet is
modelled as its parsed date, its rows, and an optional fault position: with
`faultAt = some k` the iteration raises after `k` rows.  On a fault the
transaction rolls back the database, while `self.stats`/`self.errors` keep the
increments already made; the outer `except` records a sheet error and returns
False.  `ContractsImporter.import_data` wraps the whole single-sheet row loop
in one `transaction.atomic()`; `_process_row` there catches nothing, so a row
can fault and the whole import rolls back. -/

structure MeterSheet where
  reading_date : Nat
  rows : List MRow
  faultAt : Option Nat
  deriving Repr, DecidableEq

/-- Row loop of `_process_sheet`. -/
def processMeterRows (s : Store) (st : MState) (rows : List MRow) (d : Nat) :
    Store × MState :=
  rows.foldl (fun acc row => processMeterRow acc.1 acc.2 row d) (s, st)

/-- `_process_sheet` around the row loop: per-sheet `transaction.atomic()`. -/
def processSheetTx (s : Store) (st : MState) (sheet : MeterSheet) :
    Store × MState × Bool :=
  match sheet.faultAt with
  | none =>
    let r := processMeterRows s st sheet.rows sheet.reading_date
    (r.1, r.2, true)
  | some k =>
    let r := processMeterRows s st (sheet.rows.take k) sheet.reading_date
    (s, { r.2 with errors := r.2.errors ++ [s!"Ошибка в листе"] }, false)

/-- Sheet loop of `MeterImporter.import_data` (lines 64–68): each successful
sheet increments `sheets_processed`; a failed sheet does not stop the loop. -/
def importMeterSheets (s : Store) (st : MState) (sheets : List MeterSheet) :
    Store × MState :=
  sheets.foldl
    (fun acc sheet =>
      let r := processSheetTx acc.1 acc.2 sheet
      (r.1,
       if r.2.2 then { r.2.1 with sheets_processed := r.2.1.sheets_processed + 1 }
       else r.2.1))
    (s, st)

/-- Row loop of `ContractsImporter.import_data`. -/
def processContractRows (s : Store) (st : CState) (rows : List CRow) :
    Store × CState :=
  rows.foldl (fun acc row => processContractRow acc.1 acc.2 row) (s, st)

/-- `ContractsImporter.import_data` around its single `transaction.atomic()`
block; `faultAt = some k` raises after `k` rows, the top-level `except`
records the error and returns False, and the transaction rolls back every
store mutation of the invocation. -/
def contractsImportTx (s : Store) (st : CState) (rows : List CRow)
    (faultAt : Option Nat) : Store × CState × Bool :=
  match faultAt with
  | none =>
    let r := processContractRows s st rows
    (r.1, r.2, true)
  | some k =>
    let r := processContractRows s st (rows.take k)
    (s, { r.2 with errors := r.2.errors ++ [s!"Ошибка при обработке файла"] }, false)

/-! ### get_stats (meter_importer.py lines 372–384,
contracts_importer.py lines 217–223) -/

structure StatsReport where
  success : Bool
  errors : List String
  unmatched_count : Nat
  deriving Repr, DecidableEq

/-- `MeterImporter.get_stats`: `success = (len(self.errors) == 0)`. -/
def meterGetStats (st : MState) : StatsReport :=
  ⟨st.errors.length == 0, st.errors, st.unmatched.length⟩

/-- `ContractsImporter.get_stats`: `success = (len(self.errors) == 0)`. -/
def contractsGetStats (st : CState) : StatsReport :=
  ⟨st.errors.length == 0, st.errors, st.unmatched.length⟩

/-! ### Helpers for stating the claims -/

/-- Strip plus parenthesis-annotation truncation, the first two normalizer
steps; used to state which string the space rule then applies to. -/
def parenStripped (nm : String) : String :=
  let b := pyStrip nm
  if hasSub b " (" then pyStrip (beforeSub b " (") else b

/-- Residual of the shared-marker branch: the marker word is dropped and only
the text before the first comma is kept. -/
def markerResidual (s : String) : String :=
  let b := pyStrip (strDrop (pyStrip s) 6)
  if hasChar b ',' then pyStrip (beforeChar b ',') else b

/-- Per-name outcome of the resolution loop of `ContractsImporter._process_row`:
the building-scoped lookup, then the unscoped fallback. -/
def resolveNameFull (ps : List Pavilion) (bId : Nat) (n : String) : Option Pavilion :=
  match find_pavilions_by_names ps [n] (some bId) with
  | p :: _ => some p
  | [] =>
    match find_pavilions_by_names ps [n] none with
    | p :: _ => some p
    | [] => none

/-- Pavilion with the four roster-managed fields forced to the row's targets. -/
def targ (bId tId cId : Nat) (p : Pavilion) : Pavilion :=
  { p with building := bId, tenant := some tId, contract := some cId, status := "rented" }

/-- Pointwise image of a finished update pass: pavilions whose id the pass
touched are forced to the targets, the rest are unchanged. -/
def tfMark (F : Nat → Bool) (bId tId cId : Nat) (p : Pavilion) : Pavilion :=
  if F p.id then targ bId tId cId p else p

/-- The four roster-managed fields are at their targets. -/
def isTarg (bId tId cId : Nat) (p : Pavilion) : Prop :=
  p.building = bId ∧ p.tenant = some tId ∧ p.contract = some cId ∧ p.status = "rented"

instance (bId tId cId : Nat) (p : Pavilion) : Decidable (isTarg bId tId cId p) := by
  unfold isTarg; infer_instance

/-! ### Concrete instances for witnesses and counterexamples -/

def emptyStore : Store := ⟨[], [], [], [], [], [], 0⟩

def mstate0 : MState := ⟨[], 0, 0, 0, 0, []⟩

def cstate0 : CState := ⟨[], 0, 0, 0, 0, 0, []⟩

/-- Store with one building and one pavilion named Г21/1, no meters and no
readings. -/
def c1Store : Store :=
  ⟨[⟨0, "Основной рынок"⟩], [], [], [⟨1, "Г21/1", 0, none, none, "free"⟩], [], [], 2⟩

/-- Readings sheet whose single row creates meter М-1 with reading 100 on
pavilion Г21/1, iteration completing normally. -/
def c1SheetA : MeterSheet := ⟨10, [⟨"М-1", "С-9", "100", "Г21/1", "5"⟩], none⟩

/-- Readings sheet whose iteration faults immediately (`faultAt = some 0`). -/
def c1SheetB : MeterSheet := ⟨11, [], some 0⟩

/-- Store holding meter 7 with an existing reading on date 3. -/
def c4Store : Store :=
  ⟨[⟨0, "Основной рынок"⟩], [], [], [⟨1, "Г21/1", 0, none, none, "free"⟩],
   [⟨7, "М-1", "С-9", "Г21/1", some 5, [1]⟩], [⟨7, 3, 100, some 0⟩], 8⟩

/-- Meter record used to exercise the duplicate-date guard against `c4Store`. -/
def c4Meter : ElectricityMeter := ⟨7, "М-1", "С-9", "Г21/1", some 5, [1]⟩

/-- Store with one reading (meter 1, date 1, value 100). -/
def c2Store : Store := ⟨[], [], [], [], [], [⟨1, 1, 100, some 0⟩], 0⟩

/-- Roster row: tenant ИП Иванов, contract with known code КК/В, object Г21/1. -/
def c3Row : CRow := ⟨"ИП Иванов", "123456789012", "Договор КК/В-7 от 01.01.2024", "Г21/1"⟩

/-- Meter row resolving to pavilion Г21/1 of `c1Store`. -/
def c8Row : MRow := ⟨"М-1", "С-9", "100", "Г21/1", "5"⟩

/-- Building name selected for a contract name; by
`buildingNameFromContract` it does not depend on the state argument. -/
def contractBuildingName (cn : String) : String :=
  (buildingNameFromContract cstate0 cn).1

/-- Canonical building produced by a roster row's building phase. -/
def pass1Building (s0 : Store) (cn : String) : Building × Store :=
  getOrCreateBuilding s0 (contractBuildingName cn)

/-- Canonical tenant produced by a roster row's tenant phase (the store part
of the phase does not depend on the state argument). -/
def pass1Tenant (s0 : Store) (tn inn cn : String) : Tenant × Store × CState :=
  tenantUpsertPhase (pass1Building s0 cn).2 cstate0 tn inn

/-- Canonical contract produced by a roster row's contract phase. -/
def pass1Contract (s0 : Store) (tn inn cn : String) : Contract × Store × CState :=
  contractUpsertPhase (pass1Tenant s0 tn inn cn).2.1 cstate0 cn

/-! ## Theorems -/

/-! ### General list helpers -/

theorem map_self_of_fix {α : Type} (l : List α) (f : α → α) (h : ∀ a ∈ l, f a = a) :
    l.map f = l := by
  induction l with
  | nil => rfl
  | cons a t ih =>
    simp only [List.map_cons, h a (List.mem_cons_self a t)]
    rw [ih fun x hx => h x (List.mem_cons_of_mem a hx)]

theorem find?_append_of_none {α : Type} (p : α → Bool) (l₁ l₂ : List α)
    (h : l₁.find? p = none) : (l₁ ++ l₂).find? p = l₂.find? p := by
  induction l₁ with
  | nil => rfl
  | cons a t ih =>
    by_cases ha : p a = true
    · rw [List.find?_cons_of_pos _ ha] at h; exact absurd h (by simp)
    · rw [List.find?_cons_of_neg _ (by simpa using ha)] at h
      rw [List.cons_append, List.find?_cons_of_neg _ (by simpa using ha)]
      exact ih h

theorem find?_map_replaceById {α : Type} (idf : α → Nat) (p : α → Bool) :
    ∀ (l : List α) (a b : α), l.find? p = some a →
      (l.map idf).Nodup → idf b = idf a → p b = true →
      (l.map (fun x => if idf x == idf b then b else x)).find? p = some b := by
  intro l
  induction l with
  | nil => intro a b h; simp at h
  | cons x xs ih =>
    intro a b h hnd hid hpb
    by_cases hx : p x = true
    · rw [List.find?_cons_of_pos _ hx] at h
      have hax : x = a := by injection h
      have hrep : (if idf x == idf b then b else x) = b := by
        rw [if_pos]; rw [beq_iff_eq, hid, hax]
      simp only [List.map_cons, hrep]
      exact List.find?_cons_of_pos _ hpb
    · rw [List.find?_cons_of_neg _ (by simpa using hx)] at h
      have hmem : a ∈ xs := List.mem_of_find?_eq_some h
      rw [List.map_cons, List.nodup_cons] at hnd
      have hxa : idf x ≠ idf a := by
        intro e
        exact hnd.1 (e ▸ List.mem_map_of_mem idf hmem)
      have hrep : (if idf x == idf b then b else x) = x := by
        rw [if_neg]; rw [beq_iff_eq, hid]; exact hxa
      simp only [List.map_cons, hrep]
      rw [List.find?_cons_of_neg _ (by simpa using hx)]
      exact ih a b h hnd.2 hid hpb

theorem mem_trimChars {cs : List Char} {c : Char} (h : c ∈ trimChars cs) : c ∈ cs := by
  unfold trimChars at h
  rw [List.mem_reverse] at h
  have h1 := (List.dropWhile_sublist isWs).mem h
  rw [List.mem_reverse] at h1
  exact (List.dropWhile_sublist isWs).mem h1

theorem hasChar_pyStrip_false {t : String} {c : Char} (h : hasChar t c = false) :
    hasChar (pyStrip t) c = false := by
  unfold hasChar pyStrip at *
  rw [Bool.eq_false_iff] at h ⊢
  intro hc
  exact h (List.elem_iff.mpr (mem_trimChars (List.elem_iff.mp hc)))

theorem hasChar_beforeChar_false (s : String) (c : Char) :
    hasChar (beforeChar s c) c = false := by
  unfold hasChar beforeChar
  rw [Bool.eq_false_iff]
  intro hc
  have := List.mem_takeWhile_imp (List.elem_iff.mp hc)
  simp at this

/-! ### C10 -/

/-- C10: for both importers the `success` flag of `get_stats` is true exactly
when the accumulated error/warning list is empty, and a completed roster
`import_data` run returns True regardless of accumulated warnings, so any
recorded warning makes `success` false even for a completed run. -/
theorem get_stats_success_iff_no_errors :
    (∀ m : MState, (meterGetStats m).success = m.errors.isEmpty) ∧
    (∀ c : CState, (contractsGetStats c).success = c.errors.isEmpty) ∧
    (∀ (s : Store) (st : CState) (rows : List CRow),
      (contractsImportTx s st rows none).2.2 = true) := by
  refine ⟨fun m => ?_, fun c => ?_, fun s st rows => rfl⟩
  · rcases m with ⟨errs, _, _, _, _, _⟩; cases errs <;> rfl
  · rcases c with ⟨errs, _, _, _, _, _, _⟩; cases errs <;> rfl

/-! ### C7 -/

/-- C7 counterexample: on the empty string the expander returns `[""]`, a
one-element sequence holding the empty string, not the empty sequence the
claim states. -/
theorem expand_empty_counterexample :
    expand_location_to_pavilion_names "" ≠ ([] : List String) := by decide

/-- C7 amended: for every input that is empty after trimming, the expander
returns the one-element sequence `[""]` (whose sole element is the empty
string, later skipped by the resolvers). -/
theorem expand_empty_after_trim (s : String) (h : pyStrip s = "") :
    expand_location_to_pavilion_names s = [""] := by
  simp only [expand_location_to_pavilion_names, h]
  decide

theorem expand_empty_after_trim_witness :
    pyStrip "  " = "" ∧ expand_location_to_pavilion_names "  " = [""] :=
  ⟨by decide, expand_empty_after_trim "  " (by decide)⟩

/-! ### C5 -/

/-- C5 counterexample: in `"AB C1 D"` the token preceding the last space is
`"C1"`, which ends in a digit, so the claim's rule truncates to the leading
token; the code instead looks at the token before the FIRST space (`"AB"`, not
digit-terminated) and leaves the string unchanged. -/
theorem normalize_last_space_counterexample :
    normalize_single_name "AB C1 D" = "AB C1 D" ∧
    "AB C1 D" ≠ "AB" ∧ "AB C1 D" ≠ "AB C1" := by decide

/-- C5 amended: after stripping and `" ("`-truncation, the string is truncated
to the token before the FIRST space exactly when that token is nonempty and
ends in a digit; otherwise it is returned unchanged.  The claim's examples
hold: `"Г21/1 (2 этаж)" ↦ "Г21/1"`, `"Е11/1 5квт" ↦ "Е11/1"`, `"Пассаж 61"`
unchanged. -/
theorem normalize_first_space_rule :
    (∀ nm : String,
      (hasChar (parenStripped nm) ' ' = false →
        normalize_single_name nm = parenStripped nm) ∧
      (hasChar (parenStripped nm) ' ' = true →
        beforeChar (parenStripped nm) ' ' ≠ "" →
        lastCharIsDigit (beforeChar (parenStripped nm) ' ') = true →
        normalize_single_name nm = beforeChar (parenStripped nm) ' ') ∧
      (hasChar (parenStripped nm) ' ' = true →
        (beforeChar (parenStripped nm) ' ' = "" ∨
          lastCharIsDigit (beforeChar (parenStripped nm) ' ') = false) →
        normalize_single_name nm = parenStripped nm)) ∧
    normalize_single_name "Г21/1 (2 этаж)" = "Г21/1" ∧
    normalize_single_name "Е11/1 5квт" = "Е11/1" ∧
    normalize_single_name "Пассаж 61" = "Пассаж 61" := by
  refine ⟨fun nm => ⟨?_, ?_, ?_⟩, by decide, by decide, by decide⟩
  · intro h1
    simp only [normalize_single_name, parenStripped] at h1 ⊢
    rw [if_neg (by simp [h1])]
  · intro h1 h2 h3
    simp only [normalize_single_name, parenStripped] at h1 h2 h3 ⊢
    rw [if_pos (by simp [h1]), if_pos ⟨h2, h3⟩]
  · intro h1 h2
    simp only [normalize_single_name, parenStripped] at h1 h2 ⊢
    rw [if_pos (by simp [h1]), if_neg]
    rcases h2 with h2 | h2
    · exact fun hc => hc.1 h2
    · exact fun hc => by rw [hc.2] at h2; exact absurd h2 (by simp)

theorem normalize_first_space_rule_witness :
    hasChar (parenStripped "Е11/1 5квт") ' ' = true ∧
    beforeChar (parenStripped "Е11/1 5квт") ' ' ≠ "" ∧
    lastCharIsDigit (beforeChar (parenStripped "Е11/1 5квт") ' ') = true ∧
    normalize_single_name "Е11/1 5квт" = beforeChar (parenStripped "Е11/1 5квт") ' ' :=
  ⟨by decide, by decide, by decide,
    (normalize_first_space_rule.1 "Е11/1 5квт").2.1 (by decide) (by decide) (by decide)⟩

/-! ### C6 -/

theorem markerResidual_no_comma (s : String) : hasChar (markerResidual s) ',' = false := by
  unfold markerResidual
  by_cases hb : hasChar (pyStrip (strDrop (pyStrip s) 6)) ',' = true
  · rw [if_pos hb]
    exact hasChar_pyStrip_false (hasChar_beforeChar_false _ ',')
  · rw [if_neg hb]
    exact Bool.eq_false_iff.mpr hb

/-- C6: an input starting (case-insensitively) with the shared-meter marker is
reduced to the text before the first comma of the remainder and expanded as a
single name; the claim's three examples evaluate as stated. -/
theorem expand_shared_marker_and_examples :
    (∀ s : String,
      List.isPrefixOf sharedMarker (lowerStr (pyStrip s)).data = true →
      expand_location_to_pavilion_names s = singleNameVariants (markerResidual s)) ∧
    expand_location_to_pavilion_names "Общий Г11/1, Г10/111/6 (+)" = ["Г11/1"] ∧
    expand_location_to_pavilion_names "Е10/1,2" = ["Е10/1", "Е10/2"] ∧
    expand_location_to_pavilion_names "Г9/1, Д10/1, Д12/1" = ["Г9/1", "Д10/1", "Д12/1"] := by
  refine ⟨fun s h => ?_, by decide, by decide, by decide⟩
  have hnc := markerResidual_no_comma s
  unfold markerResidual at hnc
  simp [expand_location_to_pavilion_names, markerResidual, h, hnc]

theorem expand_shared_marker_witness :
    List.isPrefixOf sharedMarker (lowerStr (pyStrip "Общий В18/5, В18/519/7")).data = true ∧
    expand_location_to_pavilion_names "Общий В18/5, В18/519/7" =
      singleNameVariants (markerResidual "Общий В18/5, В18/519/7") :=
  ⟨by decide, expand_shared_marker_and_examples.1 "Общий В18/5, В18/519/7" (by decide)⟩

/-! ### C1 -/

/-- C1 counterexample: meter import does NOT run inside one per-invocation
transaction.  `c1SheetA` commits a meter and a reading; the iteration of
`c1SheetB` then faults (`faultAt = some 0`), an unhandled fault mid-import.
The claim requires every already-applied store mutation of the invocation to
be rolled back, i.e. the final store to equal `c1Store`; it does not, because
only the faulting sheet's own `transaction.atomic()` block is rolled back
while sheet A's commit persists. -/
theorem meter_import_not_single_transaction :
    (importMeterSheets c1Store mstate0 [c1SheetA, c1SheetB]).1 ≠ c1Store := by decide

/-- C1 amended: the roster import wraps all row mutations of its single sheet
in one transaction (an unhandled fault rolls the whole invocation back), while
the meter import wraps each sheet's row loop in its own transaction: a fault
mid-sheet restores the store as of the start of that sheet, and a fault in a
later sheet leaves the mutations committed by earlier sheets in place; row
processing inside a sheet continues row by row (row-level business errors are
recorded in the in-memory state and cause no rollback). -/
theorem transaction_boundaries_amended :
    (∀ (s : Store) (st : MState) (sheet : MeterSheet) (k : Nat),
      sheet.faultAt = some k → (processSheetTx s st sheet).1 = s) ∧
    (∀ (s : Store) (st : CState) (rows : List CRow) (k : Nat),
      (contractsImportTx s st rows (some k)).1 = s) ∧
    (∀ (s : Store) (st : MState) (sheets : List MeterSheet) (sheet : MeterSheet) (k : Nat),
      sheet.faultAt = some k →
      (importMeterSheets s st (sheets ++ [sheet])).1 = (importMeterSheets s st sheets).1) ∧
    (∀ (s : Store) (st : MState) (row : MRow) (rest : List MRow) (d : Nat),
      processMeterRows s st (row :: rest) d =
        processMeterRows (processMeterRow s st row d).1 (processMeterRow s st row d).2 rest d) := by
  have h1 : ∀ (s : Store) (st : MState) (sheet : MeterSheet) (k : Nat),
      sheet.faultAt = some k → (processSheetTx s st sheet).1 = s := by
    intro s st sheet k hk
    unfold processSheetTx
    rw [hk]
  refine ⟨h1, fun s st rows k => rfl, ?_, fun s st row rest d => rfl⟩
  intro s st sheets sheet k hk
  unfold importMeterSheets
  rw [List.foldl_append]
  simp only [List.foldl_cons, List.foldl_nil]
  exact h1 _ _ sheet k hk

theorem transaction_boundaries_amended_witness :
    (processSheetTx c1Store mstate0 c1SheetB).1 = c1Store ∧
    (contractsImportTx c1Store cstate0 [c3Row] (some 0)).1 = c1Store ∧
    (importMeterSheets c1Store mstate0 ([c1SheetA] ++ [c1SheetB])).1 =
      (importMeterSheets c1Store mstate0 [c1SheetA]).1 :=
  ⟨transaction_boundaries_amended.1 c1Store mstate0 c1SheetB 0 rfl,
   transaction_boundaries_amended.2.1 c1Store cstate0 [c3Row] 0,
   transaction_boundaries_amended.2.2.1 c1Store mstate0 [c1SheetA] c1SheetB 0 rfl⟩

/-! ### C4 -/

/-- C4: when a reading for `(meter, date)` already exists in the store,
processing any new reading value for that meter and date leaves the store's
reading set unchanged and does not increment `readings_created` (the embedded
`_process_reading` is total, so no exception escapes either). -/
theorem duplicate_date_reading_noop (s : Store) (st : MState)
    (meter : ElectricityMeter) (raw : String) (d : Nat)
    (h : s.readings.any (fun r => r.meter == meter.id && r.date == d) = true) :
    (processReading s st meter raw d).1.readings = s.readings ∧
    (processReading s st meter raw d).2.readings_created = st.readings_created := by
  unfold processReading
  dsimp only
  split
  · exact ⟨rfl, rfl⟩
  · split
    · exact ⟨rfl, rfl⟩
    · cases hp : parseFloatQ (cleanReadingText raw) with
      | none => exact ⟨rfl, rfl⟩
      | some v =>
        dsimp only
        exact ⟨rfl, rfl⟩

theorem duplicate_date_reading_noop_witness :
    c4Store.readings.any (fun r => r.meter == c4Meter.id && r.date == 3) = true ∧
    (processReading c4Store mstate0 c4Meter "150" 3).1.readings = c4Store.readings ∧
    (processReading c4Store mstate0 c4Meter "150" 3).2.readings_created = 0 :=
  ⟨by decide,
   (duplicate_date_reading_noop c4Store mstate0 c4Meter "150" 3 (by decide)).1,
   (duplicate_date_reading_noop c4Store mstate0 c4Meter "150" 3 (by decide)).2⟩

/-! ### C2 -/

theorem foldlMaxDate_cases (l : List ElectricityReading) :
    ∀ acc,
      ∀ p, l.foldl (fun acc r =>
          match acc with
          | none => some r
          | some b => if b.date < r.date then some r else acc) acc = some p →
        (p ∈ l ∨ acc = some p) ∧ (∀ q ∈ l, q.date ≤ p.date) ∧
        (∀ a, acc = some a → a.date ≤ p.date) := by
  induction l with
  | nil =>
    intro acc p h
    exact ⟨Or.inr h, by simp, fun a ha => by rw [ha] at h; injection h with h; rw [h]⟩
  | cons r t ih =>
    intro acc p h
    rw [List.foldl_cons] at h
    rcases acc with _ | b
    · have := ih (some r) p h
      refine ⟨?_, ?_, by simp⟩
      · rcases this.1 with hm | he
        · exact Or.inl (List.mem_cons_of_mem r hm)
        · exact Or.inl (by injection he with he; rw [he]; exact List.mem_cons_self p t)
      · intro q hq
        rcases List.mem_cons.mp hq with hq | hq
        · rw [hq]; exact this.2.2 r rfl
        · exact this.2.1 q hq
    · dsimp only at h
      by_cases hlt : b.date < r.date
      · rw [if_pos hlt] at h
        have := ih (some r) p h
        refine ⟨?_, ?_, ?_⟩
        · rcases this.1 with hm | he
          · exact Or.inl (List.mem_cons_of_mem r hm)
          · exact Or.inl (by injection he with he; rw [he]; exact List.mem_cons_self p t)
        · intro q hq
          rcases List.mem_cons.mp hq with hq | hq
          · rw [hq]; exact this.2.2 r rfl
          · exact this.2.1 q hq
        · intro a ha
          injection ha with ha
          rw [← ha]
          exact le_trans (le_of_lt hlt) (this.2.2 r rfl)
      · rw [if_neg hlt] at h
        have := ih (some b) p h
        refine ⟨?_, ?_, ?_⟩
        · rcases this.1 with hm | he
          · exact Or.inl (List.mem_cons_of_mem r hm)
          · exact Or.inr he
        · intro q hq
          rcases List.mem_cons.mp hq with hq | hq
          · rw [hq]
            exact le_trans (Nat.le_of_not_lt hlt) (this.2.2 b rfl)
          · exact this.2.1 q hq
        · intro a ha
          injection ha with ha
          rw [← ha]
          exact this.2.2 b rfl

theorem foldlMaxDate_none (l : List ElectricityReading) :
    ∀ acc, l.foldl (fun acc r =>
        match acc with
        | none => some r
        | some b => if b.date < r.date then some r else acc) acc = none →
      l = [] ∧ acc = none := by
  induction l with
  | nil => intro acc h; exact ⟨rfl, h⟩
  | cons r t ih =>
    intro acc h
    rw [List.foldl_cons] at h
    rcases acc with _ | b
    · exact absurd ((ih (some r) h).2) (by simp)
    · dsimp only at h
      by_cases hlt : b.date < r.date
      · rw [if_pos hlt] at h
        exact absurd ((ih (some r) h).2) (by simp)
      · rw [if_neg hlt] at h
        exact absurd ((ih (some b) h).2) (by simp)

theorem previousReading_some {rs : List ElectricityReading} {m d : Nat}
    {p : ElectricityReading} (h : previousReading rs m d = some p) :
    p ∈ rs ∧ p.meter = m ∧ p.date < d ∧
      ∀ q ∈ rs, q.meter = m → q.date < d → q.date ≤ p.date := by
  unfold previousReading at h
  have hc := foldlMaxDate_cases _ none p h
  have hpm : p ∈ rs.filter (fun r => r.meter == m && decide (r.date < d)) := by
    rcases hc.1 with hm | he
    · exact hm
    · exact absurd he (by simp)
  have hp := List.mem_filter.mp hpm
  have hprop : p.meter = m ∧ p.date < d := by
    have := hp.2
    simp only [Bool.and_eq_true, beq_iff_eq, decide_eq_true_eq] at this
    exact this
  refine ⟨hp.1, hprop.1, hprop.2, fun q hq hqm hqd => ?_⟩
  exact hc.2.1 q (List.mem_filter.mpr ⟨hq, by simp [hqm, hqd]⟩)

theorem previousReading_none {rs : List ElectricityReading} {m d : Nat}
    (h : previousReading rs m d = none) :
    ∀ q ∈ rs, q.meter = m → ¬ q.date < d := by
  unfold previousReading at h
  have hc := (foldlMaxDate_none _ none h).1
  intro q hq hqm hqd
  have : q ∈ rs.filter (fun r => r.meter == m && decide (r.date < d)) :=
    List.mem_filter.mpr ⟨hq, by simp [hqm, hqd]⟩
  rw [hc] at this
  exact absurd this (List.not_mem_nil q)

/-- C2: a newly created reading of meter `m` on date `d` gets
`consumption = meter_reading − (meter_reading of the prior reading of m with
the latest date strictly below d)`, or 0 when no prior reading exists; the
value is fixed at creation: creating further readings (in particular
earlier-dated ones) only appends to the store and never rewrites the stored
reading or its consumption. -/
theorem reading_consumption_invariant (s : Store) (m d : Nat) (v : ℚ) :
    (createReading s m d v).readings =
      s.readings ++ [readingSave s.readings ⟨m, d, v, none⟩] ∧
    (∀ p, previousReading s.readings m d = some p →
      p.meter = m ∧ p.date < d ∧
      (∀ q ∈ s.readings, q.meter = m → q.date < d → q.date ≤ p.date) ∧
      (readingSave s.readings ⟨m, d, v, none⟩).consumption = some (v - p.meter_reading)) ∧
    (previousReading s.readings m d = none →
      (∀ q ∈ s.readings, q.meter = m → ¬ q.date < d) ∧
      (readingSave s.readings ⟨m, d, v, none⟩).consumption = some 0) ∧
    (∀ (m2 d2 : Nat) (v2 : ℚ),
      (createReading (createReading s m d v) m2 d2 v2).readings =
        s.readings ++ [readingSave s.readings ⟨m, d, v, none⟩] ++
          [readingSave (createReading s m d v).readings ⟨m2, d2, v2, none⟩]) := by
  refine ⟨rfl, fun p hp => ?_, fun hn => ?_, fun m2 d2 v2 => rfl⟩
  · have hs := previousReading_some hp
    refine ⟨hs.2.1, hs.2.2.1, hs.2.2.2, ?_⟩
    unfold readingSave
    rw [if_pos (Or.inl rfl)]
    simp only [hp]
  · refine ⟨previousReading_none hn, ?_⟩
    unfold readingSave
    rw [if_pos (Or.inl rfl)]
    simp only [hn]

theorem reading_consumption_invariant_witness :
    (createReading c2Store 1 2 150).readings =
      c2Store.readings ++ [readingSave c2Store.readings ⟨1, 2, 150, none⟩] ∧
    (readingSave c2Store.readings ⟨1, 2, 150, none⟩).consumption = some 50 ∧
    (readingSave emptyStore.readings ⟨1, 2, 150, none⟩).consumption = some 0 := by
  refine ⟨(reading_consumption_invariant c2Store 1 2 150).1, ?_, ?_⟩
  · have h := (reading_consumption_invariant c2Store 1 2 150).2.1 ⟨1, 1, 100, some 0⟩ (by decide)
    have hv : (150 : ℚ) - 100 = 50 := by norm_num
    rw [h.2.2.2, hv]
  · exact ((reading_consumption_invariant emptyStore 1 2 150).2.2.1 (by decide)).2

/-! ### C9 -/

theorem getOrCreateBuilding_name (s : Store) (nm : String) :
    (getOrCreateBuilding s nm).1.name = nm := by
  unfold getOrCreateBuilding
  cases hf : s.buildings.find? (fun b => b.name == nm) with
  | none => rfl
  | some b =>
    have := List.find?_some hf
    simpa [beq_iff_eq] using this

/-- C9: the building derived from a contract name is determined by the
extracted `КК/…` code: a known code gives its mapped building name with no new
warning; an unknown code gives the default building name and appends a warning
naming the code and the contract; no code at all gives the default building
name silently.  The returned building record carries exactly the selected
name. -/
theorem building_inference_spec (s : Store) (st : CState) (cn : String) :
    ((getBuildingFromContract s st cn).1.name = (buildingNameFromContract st cn).1) ∧
    (∀ c e, extractBuildingCode cn = some c →
      BUILDING_CODE_MAP.find? (fun x => x.1 == c) = some e →
      (buildingNameFromContract st cn).1 = e.2 ∧
      (getBuildingFromContract s st cn).2.2.errors = st.errors) ∧
    (∀ c, extractBuildingCode cn = some c →
      BUILDING_CODE_MAP.find? (fun x => x.1 == c) = none →
      (buildingNameFromContract st cn).1 = DEFAULT_BUILDING_NAME ∧
      (getBuildingFromContract s st cn).2.2.errors = st.errors ++ [unknownCodeMsg c cn]) ∧
    (extractBuildingCode cn = none →
      (buildingNameFromContract st cn).1 = DEFAULT_BUILDING_NAME ∧
      (getBuildingFromContract s st cn).2.2.errors = st.errors) := by
  refine ⟨getOrCreateBuilding_name s _, fun c e hc he => ?_, fun c hc he => ?_, fun hc => ?_⟩
  · unfold getBuildingFromContract buildingNameFromContract
    rw [hc]
    dsimp only
    rw [he]
    exact ⟨rfl, rfl⟩
  · unfold getBuildingFromContract buildingNameFromContract
    rw [hc]
    dsimp only
    rw [he]
    exact ⟨rfl, rfl⟩
  · unfold getBuildingFromContract buildingNameFromContract
    rw [hc]
    exact ⟨rfl, rfl⟩

theorem building_inference_spec_witness :
    (buildingNameFromContract cstate0 "Договор КК/В-7").1 = "Вещевой" ∧
    (getBuildingFromContract emptyStore cstate0 "Договор КК/В-7").2.2.errors = [] ∧
    (buildingNameFromContract cstate0 "Договор КК/ЯЯ-1").1 = DEFAULT_BUILDING_NAME ∧
    (getBuildingFromContract emptyStore cstate0 "Договор КК/ЯЯ-1").2.2.errors =
      [unknownCodeMsg "КК/ЯЯ" "Договор КК/ЯЯ-1"] ∧
    (buildingNameFromContract cstate0 "Договор 5").1 = DEFAULT_BUILDING_NAME := by
  have h1 := (building_inference_spec emptyStore cstate0 "Договор КК/В-7").2.1
    "КК/В" ("КК/В", "Вещевой") (by decide) (by decide)
  have h2 := (building_inference_spec emptyStore cstate0 "Договор КК/ЯЯ-1").2.2.1
    "КК/ЯЯ" (by decide) (by decide)
  have h3 := (building_inference_spec emptyStore cstate0 "Договор 5").2.2.2 (by decide)
  exact ⟨h1.1, h1.2, h2.1, h2.2, h3.1⟩

/-! ### C8 -/

theorem processReading_meters (s : Store) (st : MState) (m : ElectricityMeter)
    (raw : String) (d : Nat) : (processReading s st m raw d).1.meters = s.meters := by
  unfold processReading
  dsimp only
  split
  · rfl
  · split
    · rfl
    · cases parseFloatQ (cleanReadingText raw) with
      | none => rfl
      | some v =>
        dsimp only
        split
        · rfl
        · rfl

theorem findMeter_save_created (ms : List ElectricityMeter) (newm m1 : ElectricityMeter)
    (mn : String)
    (hfind : ms.find? (fun m => m.meter_number == mn) = none)
    (hfresh : ∀ m ∈ ms, m.id ≠ newm.id)
    (hid : m1.id = newm.id)
    (hmn : (m1.meter_number == mn) = true) :
    ((ms ++ [newm]).map (fun q => if q.id == m1.id then m1 else q)).find?
      (fun m => m.meter_number == mn) = some m1 := by
  rw [List.map_append]
  have hold : ms.map (fun q => if q.id == m1.id then m1 else q) = ms :=
    map_self_of_fix _ _ (fun q hq => by
      rw [if_neg]
      simp only [beq_iff_eq, hid]
      exact hfresh q hq)
  rw [hold, find?_append_of_none _ _ _ hfind]
  have h1 : [newm].map (fun q => if q.id == m1.id then m1 else q) = [m1] := by
    simp [hid]
  rw [h1]
  exact List.find?_cons_of_pos _ hmn

/-- Postcondition of the upsert block, for any store with unique meter ids and
a fresh id counter: afterwards the first meter with number `mn` is exactly the
written instance, which carries the given pavilion-id list, location, and
hours, and whose serial number follows the create/overwrite rule. -/
theorem meterRowUpsert_spec (s : Store) (mn sn loc : String) (hours : Option Nat)
    (pavIds : List Nat)
    (hfresh : ∀ m ∈ s.meters, m.id ≠ s.nextId)
    (hnodup : (s.meters.map (fun m => m.id)).Nodup) :
    findMeterByNumber (meterRowUpsert s mn sn loc hours pavIds).2.2.meters mn =
      some (meterRowUpsert s mn sn loc hours pavIds).1 ∧
    (meterRowUpsert s mn sn loc hours pavIds).1.pavilions = pavIds ∧
    (meterRowUpsert s mn sn loc hours pavIds).1.location = loc ∧
    (meterRowUpsert s mn sn loc hours pavIds).1.last_verified_hours_ago = hours ∧
    (findMeterByNumber s.meters mn = none →
      (meterRowUpsert s mn sn loc hours pavIds).1.serial_number = sn) ∧
    (∀ old, findMeterByNumber s.meters mn = some old →
      (meterRowUpsert s mn sn loc hours pavIds).1.serial_number =
        (if sn = "" then old.serial_number else sn)) := by
  unfold meterRowUpsert getOrCreateMeter findMeterByNumber saveMeter
  cases hfind : s.meters.find? (fun m => m.meter_number == mn) with
  | none =>
    dsimp only
    refine ⟨?_, rfl, rfl, rfl, fun _ => ?_, fun old hodd => ?_⟩
    · exact findMeter_save_created s.meters
        ⟨s.nextId, mn, (if sn = "" then "" else sn), loc, hours, []⟩
        ⟨s.nextId, mn, (if sn = "" then (if sn = "" then "" else sn) else sn),
          loc, hours, pavIds⟩
        mn hfind hfresh rfl (beq_self_eq_true mn)
    · show (if sn = "" then (if sn = "" then "" else sn) else sn) = sn
      by_cases hsn : sn = ""
      · rw [if_pos hsn, if_pos hsn, hsn]
      · rw [if_neg hsn]
    · exact absurd hodd (by simp)
  | some old =>
    dsimp only
    refine ⟨?_, rfl, rfl, rfl, fun hnone => ?_, fun old2 hold2 => ?_⟩
    · have hmn1 : (old.meter_number == mn) = true := by
        have := List.find?_some hfind
        exact this
      exact @find?_map_replaceById ElectricityMeter (fun m => m.id)
        (fun m => m.meter_number == mn) s.meters old
        ⟨old.id, old.meter_number, (if sn = "" then old.serial_number else sn),
          loc, hours, pavIds⟩
        hfind hnodup rfl hmn1
    · exact absurd hnone (by simp)
    · injection hold2 with h
      rw [← h]

/-- C8: for a processed meter row with nonempty meter number, nonempty
location, and a nonempty resolved pavilion set, the meter with that
`meter_number` exists afterwards; when it was absent it is created with the
row's serial number, the location text, and the parsed hours value; when it
existed, `serial_number` is overwritten only for a nonempty row serial while
`location` and `last_verified_hours_ago` are overwritten unconditionally; and
its pavilion association list equals exactly the resolved set.  (`hfresh` and
`hnodup` are the store invariants that meter ids are unique and the id counter
is ahead of them.) -/
theorem meter_upsert_postcondition (s : Store) (st : MState) (row : MRow) (d : Nat)
    (hmn : pyStrip row.meter_number ≠ "")
    (hloc : pyStrip row.location ≠ "")
    (hres : meterFindPavilions s.pavilions
      (expand_location_to_pavilion_names (pyStrip row.location)) ≠ [])
    (hfresh : ∀ m ∈ s.meters, m.id ≠ s.nextId)
    (hnodup : (s.meters.map (fun m => m.id)).Nodup) :
    ∃ m', findMeterByNumber (processMeterRow s st row d).1.meters
        (pyStrip row.meter_number) = some m' ∧
      m'.pavilions = (meterFindPavilions s.pavilions
        (expand_location_to_pavilion_names (pyStrip row.location))).map (fun p => p.id) ∧
      m'.location = pyStrip row.location ∧
      m'.last_verified_hours_ago =
        (if pyStrip row.hours_ago ≠ "" ∧ isDigitStr (pyStrip row.hours_ago) then
          some (digitsVal (pyStrip row.hours_ago)) else none) ∧
      (findMeterByNumber s.meters (pyStrip row.meter_number) = none →
        m'.serial_number = pyStrip row.serial_number) ∧
      (∀ old, findMeterByNumber s.meters (pyStrip row.meter_number) = some old →
        m'.serial_number =
          (if pyStrip row.serial_number = "" then old.serial_number
           else pyStrip row.serial_number)) := by
  have hspec := meterRowUpsert_spec s (pyStrip row.meter_number)
    (pyStrip row.serial_number) (pyStrip row.location)
    (if pyStrip row.hours_ago ≠ "" ∧ isDigitStr (pyStrip row.hours_ago) then
      some (digitsVal (pyStrip row.hours_ago)) else none)
    ((meterFindPavilions s.pavilions
      (expand_location_to_pavilion_names (pyStrip row.location))).map (fun p => p.id))
    hfresh hnodup
  have heq : (processMeterRow s st row d).1.meters =
      (meterRowUpsert s (pyStrip row.meter_number) (pyStrip row.serial_number)
        (pyStrip row.location)
        (if pyStrip row.hours_ago ≠ "" ∧ isDigitStr (pyStrip row.hours_ago) then
          some (digitsVal (pyStrip row.hours_ago)) else none)
        ((meterFindPavilions s.pavilions
          (expand_location_to_pavilion_names (pyStrip row.location))).map
            (fun p => p.id))).2.2.meters := by
    unfold processMeterRow
    dsimp only
    rw [if_neg (by push_neg; exact ⟨hmn, hloc⟩)]
    rw [if_neg (by simpa [List.isEmpty_iff] using hres)]
    rw [processReading_meters]
  rw [heq]
  exact ⟨_, hspec.1, hspec.2.1, hspec.2.2.1, hspec.2.2.2.1, hspec.2.2.2.2.1,
    hspec.2.2.2.2.2⟩

theorem meter_upsert_postcondition_witness :
    ∃ m', findMeterByNumber (processMeterRow c1Store mstate0 c8Row 3).1.meters
        (pyStrip c8Row.meter_number) = some m' ∧
      m'.pavilions = (meterFindPavilions c1Store.pavilions
        (expand_location_to_pavilion_names (pyStrip c8Row.location))).map (fun p => p.id) ∧
      m'.location = pyStrip c8Row.location ∧
      m'.last_verified_hours_ago =
        (if pyStrip c8Row.hours_ago ≠ "" ∧ isDigitStr (pyStrip c8Row.hours_ago) then
          some (digitsVal (pyStrip c8Row.hours_ago)) else none) ∧
      (findMeterByNumber c1Store.meters (pyStrip c8Row.meter_number) = none →
        m'.serial_number = pyStrip c8Row.serial_number) ∧
      (∀ old, findMeterByNumber c1Store.meters (pyStrip c8Row.meter_number) = some old →
        m'.serial_number =
          (if pyStrip c8Row.serial_number = "" then old.serial_number
           else pyStrip c8Row.serial_number)) :=
  meter_upsert_postcondition c1Store mstate0 c8Row 3 (by decide) (by decide) (by decide)
    (by intro m hm; simp [c1Store] at hm) (by simp [c1Store])

/-! ### C3: update-loop lemmas -/

theorem updatePavilionFields_fst (p : Pavilion) (bId tId cId : Nat) :
    (updatePavilionFields p bId tId cId).1 = targ bId tId cId p := rfl

theorem updatePavilionFields_snd_false (p : Pavilion) (bId tId cId : Nat) :
    (updatePavilionFields p bId tId cId).2 = false ↔ isTarg bId tId cId p := by
  unfold updatePavilionFields isTarg
  simp [Bool.and_eq_true, beq_iff_eq, and_assoc]

theorem isTarg_targ (bId tId cId : Nat) (p : Pavilion) :
    isTarg bId tId cId (targ bId tId cId p) := by
  unfold isTarg targ
  exact ⟨rfl, rfl, rfl, rfl⟩

theorem targ_id (bId tId cId : Nat) (p : Pavilion) : (targ bId tId cId p).id = p.id := rfl

theorem targ_name (bId tId cId : Nat) (p : Pavilion) :
    (targ bId tId cId p).name = p.name := rfl

theorem targ_eq_self (bId tId cId : Nat) (p : Pavilion) (h : isTarg bId tId cId p) :
    targ bId tId cId p = p := by
  rcases p with ⟨i, nm, b, t, c, stt⟩
  rcases h with ⟨h1, h2, h3, h4⟩
  unfold targ
  dsimp only at h1 h2 h3 h4 ⊢
  rw [h1, h2, h3, h4]

theorem tfMark_id (F : Nat → Bool) (bId tId cId : Nat) (p : Pavilion) :
    (tfMark F bId tId cId p).id = p.id := by
  unfold tfMark
  split <;> rfl

theorem tfMark_name (F : Nat → Bool) (bId tId cId : Nat) (p : Pavilion) :
    (tfMark F bId tId cId p).name = p.name := by
  unfold tfMark
  split <;> rfl

theorem tfMark_false (bId tId cId : Nat) (p : Pavilion) :
    tfMark (fun _ => false) bId tId cId p = p := rfl

theorem map_congr_mem {α β : Type} (l : List α) (f g : α → β)
    (h : ∀ a ∈ l, f a = g a) : l.map f = l.map g := by
  induction l with
  | nil => rfl
  | cons a t ih =>
    simp only [List.map_cons]
    rw [h a (List.mem_cons_self a t), ih fun x hx => h x (List.mem_cons_of_mem a hx)]

theorem applyPavilionUpdates_noop (bId tId cId : Nat) :
    ∀ (found : List Pavilion) (s : Store) (st : CState),
      (∀ f ∈ found, isTarg bId tId cId f) →
      applyPavilionUpdates s st bId tId cId found = (s, st) := by
  intro found
  induction found with
  | nil => intro s st _; rfl
  | cons f rest ih =>
    intro s st h
    unfold applyPavilionUpdates
    dsimp only
    rw [(updatePavilionFields_snd_false f bId tId cId).mpr (h f (List.mem_cons_self f rest))]
    rw [if_neg Bool.false_ne_true]
    exact ih s st fun x hx => h x (List.mem_cons_of_mem f hx)

theorem applyPavilionUpdates_parts (bId tId cId : Nat) :
    ∀ (found : List Pavilion) (s : Store) (st : CState),
      (applyPavilionUpdates s st bId tId cId found).1.buildings = s.buildings ∧
      (applyPavilionUpdates s st bId tId cId found).1.tenants = s.tenants ∧
      (applyPavilionUpdates s st bId tId cId found).1.contracts = s.contracts := by
  intro found
  induction found with
  | nil => intro s st; exact ⟨rfl, rfl, rfl⟩
  | cons f rest ih =>
    intro s st
    unfold applyPavilionUpdates
    by_cases h2 : (updatePavilionFields f bId tId cId).2 = true
    · rw [if_pos h2]
      exact ih _ _
    · rw [if_neg h2]
      exact ih _ _

theorem nodup_id_inj {ps : List Pavilion} (h : (ps.map (fun p => p.id)).Nodup)
    {p q : Pavilion} (hp : p ∈ ps) (hq : q ∈ ps) (he : p.id = q.id) : p = q :=
  List.inj_on_of_nodup_map h hp hq he

/-- Pointwise effect of one save on the marked image: replacing the entry with
the snapshot's id by its targeted snapshot marks that id. -/
theorem replace_tfMark_point (bId tId cId : Nat) (G : Nat → Bool) (f p : Pavilion)
    (hinj : p.id = f.id → p = f) :
    (if (tfMark G bId tId cId p).id == (targ bId tId cId f).id
      then targ bId tId cId f else tfMark G bId tId cId p) =
    tfMark (fun i => G i || (i == f.id)) bId tId cId p := by
  rw [tfMark_id, targ_id]
  by_cases hid : p.id = f.id
  · have hpf := hinj hid
    rw [if_pos (by simpa [beq_iff_eq] using hid)]
    unfold tfMark
    dsimp only
    rw [hpf, beq_self_eq_true, Bool.or_true]
    rw [if_pos rfl]
  · rw [if_neg (by simpa [beq_iff_eq] using hid)]
    unfold tfMark
    dsimp only
    have hb : (p.id == f.id) = false := by simpa [beq_iff_eq] using hid
    rw [hb, Bool.or_false]

/-- Pointwise marking of an already-targeted snapshot is invisible. -/
theorem tfMark_point_targ (bId tId cId : Nat) (G : Nat → Bool) (f p : Pavilion)
    (htarg : isTarg bId tId cId f)
    (hinj : p.id = f.id → p = f) :
    tfMark G bId tId cId p = tfMark (fun i => G i || (i == f.id)) bId tId cId p := by
  by_cases hid : p.id = f.id
  · have hpf := hinj hid
    unfold tfMark
    dsimp only
    rw [hpf, beq_self_eq_true, Bool.or_true, if_pos rfl]
    rw [targ_eq_self _ _ _ _ htarg]
    split <;> rfl
  · unfold tfMark
    dsimp only
    have hb : (p.id == f.id) = false := by simpa [beq_iff_eq] using hid
    rw [hb, Bool.or_false]

/-- Pointwise reassociation of accumulated marks. -/
theorem tfMark_point_or (bId tId cId : Nat) (G : Nat → Bool) (f : Pavilion)
    (rest : List Pavilion) (p : Pavilion) :
    tfMark (fun i => (G i || (i == f.id)) ||
      (rest.map (fun q => q.id)).contains i) bId tId cId p =
    tfMark (fun i => G i || ((f :: rest).map (fun q => q.id)).contains i) bId tId cId p := by
  unfold tfMark
  simp only [List.map_cons, List.contains_cons, Bool.or_assoc]

/-- Pavilion-list image of a finished update loop: starting from
`ps0.map (tfMark G …)`, updating the snapshots `found ⊆ ps0` marks exactly the
ids of `found` in addition. -/
theorem applyPavilionUpdates_pavilions (bId tId cId : Nat) :
    ∀ (found : List Pavilion) (ps0 : List Pavilion) (s : Store) (st : CState)
      (G : Nat → Bool),
      s.pavilions = ps0.map (fun p => tfMark G bId tId cId p) →
      (∀ f ∈ found, f ∈ ps0) →
      (ps0.map (fun p => p.id)).Nodup →
      (applyPavilionUpdates s st bId tId cId found).1.pavilions =
        ps0.map (fun p =>
          tfMark (fun i => G i || (found.map (fun q => q.id)).contains i) bId tId cId p) := by
  intro found
  induction found with
  | nil =>
    intro ps0 s st G hps _ _
    show s.pavilions = _
    rw [hps]
    exact map_congr_mem _ _ _ fun p _ => by simp [tfMark]
  | cons f rest ih =>
    intro ps0 s st G hps hmem hnd
    have hf0 : f ∈ ps0 := hmem f (List.mem_cons_self f rest)
    have hinj : ∀ p ∈ ps0, p.id = f.id → p = f := fun p hp hid =>
      nodup_id_inj hnd hp hf0 hid
    unfold applyPavilionUpdates
    dsimp only
    by_cases hneed : (updatePavilionFields f bId tId cId).2 = true
    · rw [if_pos hneed]
      have hsave : (savePavilion s (updatePavilionFields f bId tId cId).1).pavilions =
          ps0.map (fun p => tfMark (fun i => G i || (i == f.id)) bId tId cId p) := by
        unfold savePavilion
        rw [updatePavilionFields_fst]
        show (s.pavilions.map (fun q =>
          if q.id == (targ bId tId cId f).id then targ bId tId cId f else q)) = _
        rw [hps, List.map_map]
        exact map_congr_mem _ _ _ fun p hp =>
          replace_tfMark_point bId tId cId G f p (hinj p hp)
      rw [ih ps0 _ _ _ hsave (fun x hx => hmem x (List.mem_cons_of_mem f hx)) hnd]
      exact map_congr_mem _ _ _ fun p _ => tfMark_point_or bId tId cId G f rest p
    · rw [if_neg hneed]
      have htarg : isTarg bId tId cId f :=
        (updatePavilionFields_snd_false f bId tId cId).mp (by simpa using hneed)
      have hps' : s.pavilions =
          ps0.map (fun p => tfMark (fun i => G i || (i == f.id)) bId tId cId p) := by
        rw [hps]
        exact map_congr_mem _ _ _ fun p hp =>
          tfMark_point_targ bId tId cId G f p htarg (hinj p hp)
      rw [ih ps0 _ _ _ hps' (fun x hx => hmem x (List.mem_cons_of_mem f hx)) hnd]
      exact map_congr_mem _ _ _ fun p _ => tfMark_point_or bId tId cId G f rest p

/-! ### C3: resolution-stability lemmas

After a pass of the update loop the pavilion list is `ps.map (tfMark F …)`
(the names of all entries unchanged, marked entries moved into the target
building with the target fields).  These lemmas trace a `find?`/candidate
lookup over the marked list back to the original one. -/

theorem pavMatches_tfMark_name {scope : Option Nat} {bId tId cId : Nat}
    (hsc : scope = none ∨ scope = some bId) (F : Nat → Bool) (c : String)
    (p : Pavilion) (hF : F p.id = true) :
    pavMatches scope c (tfMark F bId tId cId p) = (p.name == c) := by
  unfold tfMark
  rw [hF, if_pos rfl]
  rcases hsc with h | h <;> rw [h] <;> unfold pavMatches targ <;> simp

theorem pavMatches_tfMark_of_orig {scope : Option Nat} {bId tId cId : Nat}
    (hsc : scope = none ∨ scope = some bId) (F : Nat → Bool) (c : String)
    (p : Pavilion) (h : pavMatches scope c p = true) :
    pavMatches scope c (tfMark F bId tId cId p) = true := by
  by_cases hF : F p.id = true
  · rw [pavMatches_tfMark_name hsc F c p hF]
    unfold pavMatches at h
    exact ((Bool.and_eq_true _ _).mp h).1
  · unfold tfMark
    rw [Bool.eq_false_iff.mpr hF]
    simpa using h

theorem find?_tfMark_cases {scope : Option Nat} {bId tId cId : Nat}
    (hsc : scope = none ∨ scope = some bId) (F : Nat → Bool) (c : String) :
    ∀ (ps : List Pavilion) (u : Pavilion),
      (ps.map (fun p => tfMark F bId tId cId p)).find? (pavMatches scope c) = some u →
      isTarg bId tId cId u ∨
        (F u.id = false ∧ ps.find? (pavMatches scope c) = some u) := by
  intro ps
  induction ps with
  | nil => intro u h; simp at h
  | cons p t ih =>
    intro u h
    rw [List.map_cons] at h
    by_cases hm : pavMatches scope c (tfMark F bId tId cId p) = true
    · rw [List.find?_cons_of_pos _ hm] at h
      injection h with h
      by_cases hF : F p.id = true
      · left
        rw [← h]
        unfold tfMark
        rw [hF, if_pos rfl]
        exact isTarg_targ bId tId cId p
      · have hFf : F p.id = false := Bool.eq_false_iff.mpr hF
        have hpu : p = u := by
          rw [← h]; unfold tfMark; rw [hFf]; rfl
        right
        refine ⟨by rw [← hpu]; exact hFf, ?_⟩
        have hmo : pavMatches scope c p = true := by
          have : tfMark F bId tId cId p = p := by unfold tfMark; rw [hFf]; rfl
          rwa [this] at hm
        rw [List.find?_cons_of_pos _ hmo, hpu]
    · rw [List.find?_cons_of_neg _ (by simpa using hm)] at h
      have hmo : pavMatches scope c p = false := by
        by_contra hc
        exact hm (pavMatches_tfMark_of_orig hsc F c p (eq_true_of_ne_false hc))
      rcases ih u h with hl | ⟨h1, h2⟩
      · exact Or.inl hl
      · right
        exact ⟨h1, by rw [List.find?_cons_of_neg _ (by simp [hmo])]; exact h2⟩

theorem find?_tfMark_none {scope : Option Nat} {bId tId cId : Nat}
    (hsc : scope = none ∨ scope = some bId) (F : Nat → Bool) (c : String)
    (ps : List Pavilion)
    (h : (ps.map (fun p => tfMark F bId tId cId p)).find? (pavMatches scope c) = none) :
    ps.find? (pavMatches scope c) = none := by
  rw [List.find?_eq_none] at h ⊢
  intro p hp hmatch
  exact h (tfMark F bId tId cId p) (List.mem_map_of_mem _ hp)
    (pavMatches_tfMark_of_orig hsc F c p (by simpa using hmatch))

theorem resolveCands_tfMark_cases {scope : Option Nat} {bId tId cId : Nat}
    (hsc : scope = none ∨ scope = some bId) (F : Nat → Bool) (ps : List Pavilion) :
    ∀ (cs : List String) (u : Pavilion),
      resolveCands (ps.map (fun p => tfMark F bId tId cId p)) scope cs = some u →
      isTarg bId tId cId u ∨
        (F u.id = false ∧ resolveCands ps scope cs = some u) := by
  intro cs
  induction cs with
  | nil => intro u h; simp [resolveCands] at h
  | cons c rest ih =>
    intro u h
    unfold resolveCands at h ⊢
    by_cases hc : c = ""
    · rw [if_pos hc] at h ⊢
      exact ih u h
    · rw [if_neg hc] at h ⊢
      cases hf : (ps.map (fun p => tfMark F bId tId cId p)).find? (pavMatches scope c) with
      | some w =>
        rw [hf] at h
        injection h with h
        rw [← h]
        rcases find?_tfMark_cases hsc F c ps w hf with hl | ⟨h1, h2⟩
        · exact Or.inl hl
        · right
          exact ⟨h1, by rw [h2]⟩
      | none =>
        rw [hf] at h
        rw [find?_tfMark_none hsc F c ps hf]
        exact ih u h

theorem resolveCands_tfMark_none {scope : Option Nat} {bId tId cId : Nat}
    (hsc : scope = none ∨ scope = some bId) (F : Nat → Bool) (ps : List Pavilion) :
    ∀ (cs : List String),
      resolveCands (ps.map (fun p => tfMark F bId tId cId p)) scope cs = none →
      resolveCands ps scope cs = none := by
  intro cs
  induction cs with
  | nil => intro _; rfl
  | cons c rest ih =>
    intro h
    unfold resolveCands at h ⊢
    by_cases hc : c = ""
    · rw [if_pos hc] at h ⊢
      exact ih h
    · rw [if_neg hc] at h ⊢
      cases hf : (ps.map (fun p => tfMark F bId tId cId p)).find? (pavMatches scope c) with
      | some w => rw [hf] at h; exact absurd h (by simp)
      | none =>
        rw [hf] at h
        rw [find?_tfMark_none hsc F c ps hf]
        exact ih h

theorem resolveCandsSeen_nil (ps : List Pavilion) (bid : Option Nat) :
    ∀ cs : List String, resolveCandsSeen ps bid [] cs = resolveCands ps bid cs := by
  intro cs
  induction cs with
  | nil => rfl
  | cons c rest ih =>
    unfold resolveCandsSeen resolveCands
    by_cases hc : c = ""
    · rw [if_pos hc, if_pos hc]
      exact ih
    · rw [if_neg hc, if_neg hc]
      cases hf : ps.find? (pavMatches bid c) with
      | some p => simp [List.contains]
      | none => exact ih

theorem fpbn_singleton (ps : List Pavilion) (bid : Option Nat) (n : String) :
    find_pavilions_by_names ps [n] bid =
      (if n = "" then none else resolveCands ps bid (candidatesFor n)).toList := by
  unfold find_pavilions_by_names fpbnGo
  by_cases hn : n = ""
  · rw [if_pos hn, if_pos hn]
    rfl
  · rw [if_neg hn, if_neg hn, resolveCandsSeen_nil]
    cases resolveCands ps bid (candidatesFor n) with
    | some p => rfl
    | none => rfl

theorem resolveNameFull_mem (ps : List Pavilion) (bId : Nat) (n : String)
    (p : Pavilion) (h : resolveNameFull ps bId n = some p) : p ∈ ps := by
  have hcands : ∀ (scope : Option Nat) (cs : List String) (q : Pavilion),
      resolveCands ps scope cs = some q → q ∈ ps := by
    intro scope cs
    induction cs with
    | nil => intro q h'; simp [resolveCands] at h'
    | cons c rest ih =>
      intro q h'
      unfold resolveCands at h'
      by_cases hc : c = ""
      · rw [if_pos hc] at h'; exact ih q h'
      · rw [if_neg hc] at h'
        cases hf : ps.find? (pavMatches scope c) with
        | some w =>
          rw [hf] at h'
          injection h' with h'
          rw [← h']
          exact List.mem_of_find?_eq_some hf
        | none => rw [hf] at h'; exact ih q h'
  unfold resolveNameFull at h
  rw [fpbn_singleton, fpbn_singleton] at h
  by_cases hn : n = ""
  · simp only [hn] at h
    cases h
  · rw [if_neg hn, if_neg hn] at h
    cases h1 : resolveCands ps (some bId) (candidatesFor n) with
    | some w =>
      rw [h1] at h
      have hw : w = p := Option.some.inj h
      rw [← hw]
      exact hcands _ _ w h1
    | none =>
      rw [h1] at h
      cases h2 : resolveCands ps none (candidatesFor n) with
      | some w =>
        rw [h2] at h
        have hw : w = p := Option.some.inj h
        rw [← hw]
        exact hcands _ _ w h2
      | none =>
        rw [h2] at h
        cases h

/-- Re-resolving a name over the updated pavilion list only ever yields
pavilions whose four roster fields are already at the row's targets. -/
theorem resolveNameFull_pass2 (ps : List Pavilion) (F : Nat → Bool)
    (bId tId cId : Nat) (n : String)
    (hF : ∀ p, resolveNameFull ps bId n = some p → F p.id = true) :
    ∀ u, resolveNameFull (ps.map (fun p => tfMark F bId tId cId p)) bId n = some u →
      isTarg bId tId cId u := by
  intro u h
  unfold resolveNameFull at h
  rw [fpbn_singleton, fpbn_singleton] at h
  by_cases hn : n = ""
  · simp only [hn] at h
    cases h
  · rw [if_neg hn, if_neg hn] at h
    cases h1 : resolveCands (ps.map (fun p => tfMark F bId tId cId p)) (some bId)
        (candidatesFor n) with
    | some w =>
      rw [h1] at h
      have hw : w = u := Option.some.inj h
      rw [← hw]
      rcases resolveCands_tfMark_cases (Or.inr rfl) F ps (candidatesFor n) w h1 with
        hl | ⟨hFf, horig⟩
      · exact hl
      · exfalso
        have hfull : resolveNameFull ps bId n = some w := by
          unfold resolveNameFull
          rw [fpbn_singleton, if_neg hn, horig]
          rfl
        rw [hF w hfull] at hFf
        exact absurd hFf (by simp)
    | none =>
      rw [h1] at h
      have horigscoped := resolveCands_tfMark_none (Or.inr rfl) F ps (candidatesFor n) h1
      cases h2 : resolveCands (ps.map (fun p => tfMark F bId tId cId p)) none
          (candidatesFor n) with
      | some w =>
        rw [h2] at h
        have hw : w = u := Option.some.inj h
        rw [← hw]
        rcases resolveCands_tfMark_cases (Or.inl rfl) F ps (candidatesFor n) w h2 with
          hl | ⟨hFf, horig⟩
        · exact hl
        · exfalso
          have hfull : resolveNameFull ps bId n = some w := by
            unfold resolveNameFull
            rw [fpbn_singleton, if_neg hn, horigscoped]
            rw [fpbn_singleton, if_neg hn, horig]
            rfl
          rw [hF w hfull] at hFf
          exact absurd hFf (by simp)
      | none =>
        rw [h2] at h
        cases h

/-! ### C3: phase characterizations and stability -/

theorem resolveContractNames_found (s : Store) (b : Building) (cn : String) :
    ∀ (names : List String) (st : CState),
      (resolveContractNames s st b cn names).1 =
        names.filterMap (fun n => resolveNameFull s.pavilions b.id n) := by
  intro names
  induction names with
  | nil => intro st; rfl
  | cons n rest ih =>
    intro st
    unfold resolveContractNames
    rw [List.filterMap_cons]
    cases hs : find_pavilions_by_names s.pavilions [n] (some b.id) with
    | cons p t =>
      have hr : resolveNameFull s.pavilions b.id n = some p := by
        unfold resolveNameFull
        rw [hs]
      rw [hr]
      dsimp only
      rw [ih st]
    | nil =>
      cases hu : find_pavilions_by_names s.pavilions [n] none with
      | cons p t =>
        have hr : resolveNameFull s.pavilions b.id n = some p := by
          unfold resolveNameFull
          rw [hs, hu]
        rw [hr]
        dsimp only
        rw [ih _]
      | nil =>
        have hr : resolveNameFull s.pavilions b.id n = none := by
          unfold resolveNameFull
          rw [hs, hu]
        rw [hr]
        dsimp only
        by_cases hc : st.unmatched.contains n
        · rw [if_pos hc]
          exact ih _
        · rw [if_neg hc]
          exact ih _

theorem resolveContractNames_updated (s : Store) (b : Building) (cn : String) :
    ∀ (names : List String) (st : CState),
      (resolveContractNames s st b cn names).2.pavilions_updated =
        st.pavilions_updated := by
  intro names
  induction names with
  | nil => intro st; rfl
  | cons n rest ih =>
    intro st
    unfold resolveContractNames
    cases hs : find_pavilions_by_names s.pavilions [n] (some b.id) with
    | cons p t => exact ih st
    | nil =>
      cases hu : find_pavilions_by_names s.pavilions [n] none with
      | cons p t => exact ih _
      | nil =>
        dsimp only
        by_cases hc : st.unmatched.contains n
        · rw [if_pos hc]; exact ih _
        · rw [if_neg hc]; exact ih _

theorem getOrCreateBuilding_parts (s : Store) (nm : String) :
    (getOrCreateBuilding s nm).2.pavilions = s.pavilions ∧
    (getOrCreateBuilding s nm).2.tenants = s.tenants ∧
    (getOrCreateBuilding s nm).2.contracts = s.contracts := by
  unfold getOrCreateBuilding
  cases s.buildings.find? (fun b => b.name == nm) <;> exact ⟨rfl, rfl, rfl⟩

theorem buildingNameFromContract_fst (st st2 : CState) (cn : String) :
    (buildingNameFromContract st cn).1 = (buildingNameFromContract st2 cn).1 := by
  unfold buildingNameFromContract
  cases hx : extractBuildingCode cn with
  | none => rfl
  | some c =>
    dsimp only
    cases hf : BUILDING_CODE_MAP.find? (fun e => e.1 == c) <;> rfl

theorem buildingNameFromContract_updated (st : CState) (cn : String) :
    (buildingNameFromContract st cn).2.pavilions_updated = st.pavilions_updated := by
  unfold buildingNameFromContract
  cases hx : extractBuildingCode cn with
  | none => rfl
  | some c =>
    dsimp only
    cases hf : BUILDING_CODE_MAP.find? (fun e => e.1 == c) <;> rfl

theorem getOrCreateBuilding_stable (s : Store) (nm : String) (s2 : Store)
    (hb : s2.buildings = (getOrCreateBuilding s nm).2.buildings) :
    (getOrCreateBuilding s2 nm).1 = (getOrCreateBuilding s nm).1 := by
  unfold getOrCreateBuilding at *
  cases hf : s.buildings.find? (fun b => b.name == nm) with
  | some b =>
    rw [hf] at hb
    dsimp only at hb
    rw [hb, hf]
  | none =>
    rw [hf] at hb
    dsimp only at hb
    rw [hb, find?_append_of_none _ _ _ hf]
    rw [List.find?_cons_of_pos _ (by simp)]

theorem tenantUpsertPhase_parts (s : Store) (st : CState) (nm inn : String) :
    (tenantUpsertPhase s st nm inn).2.1.pavilions = s.pavilions ∧
    (tenantUpsertPhase s st nm inn).2.1.buildings = s.buildings ∧
    (tenantUpsertPhase s st nm inn).2.1.contracts = s.contracts ∧
    (tenantUpsertPhase s st nm inn).2.2.pavilions_updated = st.pavilions_updated := by
  unfold tenantUpsertPhase getOrCreateTenant saveTenant
  cases s.tenants.find? (fun t => t.name == nm) with
  | none =>
    dsimp only
    rw [if_pos rfl]
    exact ⟨rfl, rfl, rfl, rfl⟩
  | some t0 =>
    dsimp only
    rw [if_neg Bool.false_ne_true]
    by_cases hc : inn ≠ "" ∧ t0.inn ≠ inn
    · rw [if_pos hc]
      exact ⟨rfl, rfl, rfl, rfl⟩
    · rw [if_neg hc]
      exact ⟨rfl, rfl, rfl, rfl⟩

theorem tenantUpsertPhase_found_id (s : Store) (st : CState) (nm inn : String)
    (t0 : Tenant) (hf : s.tenants.find? (fun t => t.name == nm) = some t0) :
    (tenantUpsertPhase s st nm inn).1.id = t0.id := by
  unfold tenantUpsertPhase getOrCreateTenant
  rw [hf]
  dsimp only
  rw [if_neg Bool.false_ne_true]
  by_cases hc : inn ≠ "" ∧ t0.inn ≠ inn
  · rw [if_pos hc]
  · rw [if_neg hc]

theorem tenantUpsertPhase_stable (s : Store) (st st2 : CState) (nm inn : String)
    (s2 : Store)
    (hnd : (s.tenants.map (fun t => t.id)).Nodup)
    (hts : s2.tenants = (tenantUpsertPhase s st nm inn).2.1.tenants) :
    (tenantUpsertPhase s2 st2 nm inn).1.id = (tenantUpsertPhase s st nm inn).1.id := by
  cases hf : s.tenants.find? (fun t => t.name == nm) with
  | none =>
    have h2 : (tenantUpsertPhase s st nm inn).2.1.tenants =
        s.tenants ++ [⟨s.nextId, nm, inn⟩] := by
      unfold tenantUpsertPhase getOrCreateTenant
      rw [hf]
      dsimp only
      rw [if_pos rfl]
    have h1 : (tenantUpsertPhase s st nm inn).1.id = s.nextId := by
      unfold tenantUpsertPhase getOrCreateTenant
      rw [hf]
      dsimp only
      rw [if_pos rfl]
    have hf2 : s2.tenants.find? (fun t => t.name == nm) = some ⟨s.nextId, nm, inn⟩ := by
      rw [hts, h2, find?_append_of_none _ _ _ hf]
      exact List.find?_cons_of_pos _ (by simp)
    rw [tenantUpsertPhase_found_id s2 st2 nm inn _ hf2, h1]
  | some t0 =>
    have hp1 : (tenantUpsertPhase s st nm inn).1.id = t0.id :=
      tenantUpsertPhase_found_id s st nm inn t0 hf
    by_cases hc : inn ≠ "" ∧ t0.inn ≠ inn
    · have h2 : (tenantUpsertPhase s st nm inn).2.1.tenants =
          s.tenants.map (fun q =>
            if q.id == ({ t0 with inn := inn } : Tenant).id then
              ({ t0 with inn := inn } : Tenant) else q) := by
        unfold tenantUpsertPhase getOrCreateTenant saveTenant
        rw [hf]
        dsimp only
        rw [if_neg Bool.false_ne_true, if_pos hc]
      have hpname : ((({ t0 with inn := inn } : Tenant).name == nm) = true) := by
        have hx := List.find?_some hf
        exact hx
      have hf2 : s2.tenants.find? (fun t => t.name == nm) =
          some ({ t0 with inn := inn } : Tenant) := by
        rw [hts, h2]
        exact @find?_map_replaceById Tenant (fun t => t.id) (fun t => t.name == nm)
          s.tenants t0 ({ t0 with inn := inn } : Tenant) hf hnd rfl hpname
      rw [tenantUpsertPhase_found_id s2 st2 nm inn _ hf2, hp1]
    · have h2 : (tenantUpsertPhase s st nm inn).2.1.tenants = s.tenants := by
        unfold tenantUpsertPhase getOrCreateTenant
        rw [hf]
        dsimp only
        rw [if_neg Bool.false_ne_true, if_neg hc]
      have hf2 : s2.tenants.find? (fun t => t.name == nm) = some t0 := by
        rw [hts, h2]
        exact hf
      rw [tenantUpsertPhase_found_id s2 st2 nm inn _ hf2, hp1]

theorem contractUpsertPhase_parts (s : Store) (st : CState) (nm : String) :
    (contractUpsertPhase s st nm).2.1.pavilions = s.pavilions ∧
    (contractUpsertPhase s st nm).2.1.buildings = s.buildings ∧
    (contractUpsertPhase s st nm).2.1.tenants = s.tenants ∧
    (contractUpsertPhase s st nm).2.2.pavilions_updated = st.pavilions_updated := by
  unfold contractUpsertPhase getOrCreateContract
  cases s.contracts.find? (fun c => c.name == nm) with
  | none =>
    dsimp only
    rw [if_pos rfl]
    exact ⟨rfl, rfl, rfl, rfl⟩
  | some c0 =>
    dsimp only
    rw [if_neg Bool.false_ne_true]
    exact ⟨rfl, rfl, rfl, rfl⟩

theorem contractUpsertPhase_stable (s : Store) (st st2 : CState) (nm : String)
    (s2 : Store)
    (hcs : s2.contracts = (contractUpsertPhase s st nm).2.1.contracts) :
    (contractUpsertPhase s2 st2 nm).1.id = (contractUpsertPhase s st nm).1.id := by
  unfold contractUpsertPhase getOrCreateContract at *
  cases hf : s.contracts.find? (fun c => c.name == nm) with
  | some c0 =>
    rw [hf] at hcs
    dsimp only at hcs
    rw [if_neg Bool.false_ne_true] at hcs
    rw [hcs, hf]
    dsimp only
    rw [if_neg Bool.false_ne_true, if_neg Bool.false_ne_true]
  | none =>
    rw [hf] at hcs
    dsimp only at hcs
    rw [if_pos rfl] at hcs
    dsimp only at hcs
    rw [hcs, find?_append_of_none _ _ _ hf]
    rw [List.find?_cons_of_pos _ (by simp)]
    dsimp only
    rw [if_pos rfl, if_neg Bool.false_ne_true]

/-! ### C3: second-pass no-op -/

theorem getBuildingFromContract_def (s : Store) (st : CState) (cn : String) :
    getBuildingFromContract s st cn =
      ((getOrCreateBuilding s (buildingNameFromContract st cn).1).1,
       (getOrCreateBuilding s (buildingNameFromContract st cn).1).2,
       (buildingNameFromContract st cn).2) := rfl

theorem processContractRowCore_eq (s : Store) (st : CState) (tn inn cn po : String) :
    processContractRowCore s st tn inn cn po =
      (let b := (getOrCreateBuilding s (buildingNameFromContract st cn).1).1
       let sA := (getOrCreateBuilding s (buildingNameFromContract st cn).1).2
       let stA := (buildingNameFromContract st cn).2
       let fr := resolveContractNames sA stA b cn (expand_location_to_pavilion_names po)
       if fr.1.isEmpty then (sA, fr.2)
       else
         let tp := tenantUpsertPhase sA fr.2 tn inn
         let cp := contractUpsertPhase tp.2.1 tp.2.2 cn
         applyPavilionUpdates cp.2.1 cp.2.2 b.id tp.1.id cp.1.id fr.1) := rfl

theorem tenantUpsertPhase_st_indep (s : Store) (st st2 : CState) (nm inn : String) :
    (tenantUpsertPhase s st nm inn).1 = (tenantUpsertPhase s st2 nm inn).1 ∧
    (tenantUpsertPhase s st nm inn).2.1 = (tenantUpsertPhase s st2 nm inn).2.1 := by
  unfold tenantUpsertPhase getOrCreateTenant
  cases s.tenants.find? (fun t => t.name == nm) with
  | none =>
    dsimp only
    rw [if_pos rfl, if_pos rfl]
    exact ⟨rfl, rfl⟩
  | some t0 =>
    dsimp only
    rw [if_neg Bool.false_ne_true, if_neg Bool.false_ne_true]
    by_cases hc : inn ≠ "" ∧ t0.inn ≠ inn
    · rw [if_pos hc, if_pos hc]
      exact ⟨rfl, rfl⟩
    · rw [if_neg hc, if_neg hc]
      exact ⟨rfl, rfl⟩

theorem contractUpsertPhase_st_indep (s : Store) (st st2 : CState) (nm : String) :
    (contractUpsertPhase s st nm).1 = (contractUpsertPhase s st2 nm).1 ∧
    (contractUpsertPhase s st nm).2.1 = (contractUpsertPhase s st2 nm).2.1 := by
  unfold contractUpsertPhase getOrCreateContract
  cases s.contracts.find? (fun c => c.name == nm) with
  | none =>
    dsimp only
    rw [if_pos rfl, if_pos rfl]
    exact ⟨rfl, rfl⟩
  | some c0 =>
    dsimp only
    rw [if_neg Bool.false_ne_true, if_neg Bool.false_ne_true]
    exact ⟨rfl, rfl⟩

/-- Re-running a roster row against a store in which a previous pass already
moved every pavilion the row resolves to its targets performs no pavilion
write and leaves `pavilions_updated` untouched. -/
theorem core_pass2_noop (s0 s1 : Store) (st1 : CState) (tn inn cn po : String)
    (F : Nat → Bool)
    (hten : (s0.tenants.map (fun t => t.id)).Nodup)
    (h1 : s1.buildings = (pass1Building s0 cn).2.buildings)
    (h2 : s1.pavilions = s0.pavilions.map (fun p =>
      tfMark F (pass1Building s0 cn).1.id (pass1Tenant s0 tn inn cn).1.id
        (pass1Contract s0 tn inn cn).1.id p))
    (h3 : ∀ n ∈ expand_location_to_pavilion_names po, ∀ p,
      resolveNameFull s0.pavilions (pass1Building s0 cn).1.id n = some p →
      F p.id = true)
    (h4 : s1.tenants = (pass1Tenant s0 tn inn cn).2.1.tenants)
    (h5 : s1.contracts = (pass1Contract s0 tn inn cn).2.1.contracts) :
    (processContractRowCore s1 st1 tn inn cn po).1.pavilions = s1.pavilions ∧
    (processContractRowCore s1 st1 tn inn cn po).2.pavilions_updated =
      st1.pavilions_updated := by
  have hbn : (buildingNameFromContract st1 cn).1 = contractBuildingName cn :=
    buildingNameFromContract_fst st1 cstate0 cn
  rw [processContractRowCore_eq]
  dsimp only
  set gB := getOrCreateBuilding s1 (buildingNameFromContract st1 cn).1 with hgB
  set names := expand_location_to_pavilion_names po with hnames
  set fr := resolveContractNames gB.2 (buildingNameFromContract st1 cn).2 gB.1 cn names
    with hfr
  set tp := tenantUpsertPhase gB.2 fr.2 tn inn with htp
  set cp := contractUpsertPhase tp.2.1 tp.2.2 cn with hcp
  have hb2 : gB.1 = (pass1Building s0 cn).1 := by
    rw [hgB, hbn]
    exact getOrCreateBuilding_stable s0 (contractBuildingName cn) s1 h1
  have hsA2 : gB.2.pavilions = s1.pavilions ∧ gB.2.tenants = s1.tenants ∧
      gB.2.contracts = s1.contracts := by
    rw [hgB]
    exact getOrCreateBuilding_parts s1 (buildingNameFromContract st1 cn).1
  have hfr2 : fr.1 = names.filterMap (fun n => resolveNameFull gB.2.pavilions gB.1.id n) := by
    rw [hfr]
    exact resolveContractNames_found _ _ _ _ _
  have htarg2 : ∀ u ∈ fr.1,
      isTarg (pass1Building s0 cn).1.id (pass1Tenant s0 tn inn cn).1.id
        (pass1Contract s0 tn inn cn).1.id u := by
    intro u hu
    rw [hfr2] at hu
    rcases List.mem_filterMap.mp hu with ⟨n, hn, hres⟩
    rw [hsA2.1, h2] at hres
    have hid2 : gB.1.id = (pass1Building s0 cn).1.id := by rw [hb2]
    rw [hid2] at hres
    exact resolveNameFull_pass2 s0.pavilions F _ _ _ n (h3 n (by rw [hnames] at hn; exact hn)) u hres
  have hfrst : fr.2.pavilions_updated = st1.pavilions_updated := by
    rw [hfr, resolveContractNames_updated]
    exact buildingNameFromContract_updated st1 cn
  by_cases hfe : fr.1.isEmpty = true
  · rw [if_pos hfe]
    exact ⟨hsA2.1, hfrst⟩
  · rw [if_neg hfe]
    have htid : tp.1.id = (pass1Tenant s0 tn inn cn).1.id := by
      rw [htp]
      refine tenantUpsertPhase_stable (pass1Building s0 cn).2 cstate0 fr.2 tn inn gB.2 ?_ ?_
      · have hx : (pass1Building s0 cn).2.tenants = s0.tenants :=
          (getOrCreateBuilding_parts s0 (contractBuildingName cn)).2.1
        rw [hx]
        exact hten
      · rw [hsA2.2.1, h4]
        rfl
    have hcid : cp.1.id = (pass1Contract s0 tn inn cn).1.id := by
      rw [hcp]
      refine contractUpsertPhase_stable (pass1Tenant s0 tn inn cn).2.1 cstate0 tp.2.2 cn
        tp.2.1 ?_
      have hc1 : tp.2.1.contracts = gB.2.contracts := by
        rw [htp]
        exact (tenantUpsertPhase_parts _ _ tn inn).2.2.1
      rw [hc1, hsA2.2.2, h5]
      rfl
    have hnoop : applyPavilionUpdates cp.2.1 cp.2.2 gB.1.id tp.1.id cp.1.id fr.1 =
        (cp.2.1, cp.2.2) := by
      refine applyPavilionUpdates_noop _ _ _ fr.1 cp.2.1 cp.2.2 ?_
      intro f hfm
      have hi := htarg2 f hfm
      have hbid : gB.1.id = (pass1Building s0 cn).1.id := by rw [hb2]
      rw [hbid, htid, hcid]
      exact hi
    rw [hnoop]
    have hp1 : cp.2.1.pavilions = tp.2.1.pavilions := by
      rw [hcp]
      exact (contractUpsertPhase_parts _ _ cn).1
    have hp2 : tp.2.1.pavilions = gB.2.pavilions := by
      rw [htp]
      exact (tenantUpsertPhase_parts _ _ tn inn).1
    have hq1 : cp.2.2.pavilions_updated = tp.2.2.pavilions_updated := by
      rw [hcp]
      exact (contractUpsertPhase_parts _ _ cn).2.2.2
    have hq2 : tp.2.2.pavilions_updated = fr.2.pavilions_updated := by
      rw [htp]
      exact (tenantUpsertPhase_parts _ _ tn inn).2.2.2
    constructor
    · rw [hp1, hp2, hsA2.1]
    · rw [hq1, hq2, hfrst]

/-- Re-running a roster row that resolves no pavilion performs no pavilion
write and leaves `pavilions_updated` untouched. -/
theorem core_pass2_empty (s1 : Store) (st1 : CState) (tn inn cn po : String)
    (bId : Nat)
    (hb : (getOrCreateBuilding s1 (buildingNameFromContract st1 cn).1).1.id = bId)
    (hnone : ∀ n ∈ expand_location_to_pavilion_names po,
      resolveNameFull s1.pavilions bId n = none) :
    (processContractRowCore s1 st1 tn inn cn po).1.pavilions = s1.pavilions ∧
    (processContractRowCore s1 st1 tn inn cn po).2.pavilions_updated =
      st1.pavilions_updated := by
  rw [processContractRowCore_eq]
  dsimp only
  set gB := getOrCreateBuilding s1 (buildingNameFromContract st1 cn).1 with hgB
  set names := expand_location_to_pavilion_names po with hnames
  set fr := resolveContractNames gB.2 (buildingNameFromContract st1 cn).2 gB.1 cn names
    with hfr
  have hsA2 : gB.2.pavilions = s1.pavilions ∧ gB.2.tenants = s1.tenants ∧
      gB.2.contracts = s1.contracts := by
    rw [hgB]
    exact getOrCreateBuilding_parts s1 (buildingNameFromContract st1 cn).1
  have hfr1 : fr.1 = [] := by
    rw [hfr, resolveContractNames_found]
    apply List.filterMap_eq_nil_iff.mpr
    intro n hn
    rw [hsA2.1, hb]
    exact hnone n (by rw [hnames] at hn; exact hn)
  rw [if_pos (by rw [hfr1]; rfl)]
  refine ⟨hsA2.1, ?_⟩
  rw [hfr, resolveContractNames_updated]
  exact buildingNameFromContract_updated st1 cn

set_option maxHeartbeats 2000000 in
/-- Idempotence of the roster row body: the second run of the identical row,
against the state produced by the first, changes no pavilion and does not
increment `pavilions_updated`. -/
theorem processContractRowCore_idempotent (s0 : Store) (st0 : CState)
    (tn inn cn po : String)
    (hpav : (s0.pavilions.map (fun p => p.id)).Nodup)
    (hten : (s0.tenants.map (fun t => t.id)).Nodup) :
    (processContractRowCore (processContractRowCore s0 st0 tn inn cn po).1
        (processContractRowCore s0 st0 tn inn cn po).2 tn inn cn po).1.pavilions =
      (processContractRowCore s0 st0 tn inn cn po).1.pavilions ∧
    (processContractRowCore (processContractRowCore s0 st0 tn inn cn po).1
        (processContractRowCore s0 st0 tn inn cn po).2 tn inn cn po).2.pavilions_updated =
      (processContractRowCore s0 st0 tn inn cn po).2.pavilions_updated := by
  set r1 := processContractRowCore s0 st0 tn inn cn po with hr1
  rw [processContractRowCore_eq] at hr1
  dsimp only at hr1
  set bn := (buildingNameFromContract st0 cn).1 with hbnd
  have hbneq : bn = contractBuildingName cn := by
    rw [hbnd]
    exact buildingNameFromContract_fst st0 cstate0 cn
  set gB1 := getOrCreateBuilding s0 bn with hgB1
  set names := expand_location_to_pavilion_names po with hnames
  set fr1 := resolveContractNames gB1.2 (buildingNameFromContract st0 cn).2 gB1.1 cn names
    with hfr1d
  have hgBc : gB1 = pass1Building s0 cn := by
    rw [hgB1, hbneq]
    rfl
  have hA : gB1.2.pavilions = s0.pavilions ∧ gB1.2.tenants = s0.tenants ∧
      gB1.2.contracts = s0.contracts := by
    rw [hgB1]
    exact getOrCreateBuilding_parts s0 bn
  have hfound1 : fr1.1 = names.filterMap
      (fun n => resolveNameFull s0.pavilions gB1.1.id n) := by
    rw [hfr1d, resolveContractNames_found, hA.1]
  by_cases hempty : fr1.1.isEmpty = true
  · rw [if_pos hempty] at hr1
    have hr1p : r1.1.pavilions = s0.pavilions := by
      rw [hr1]
      exact hA.1
    have hr1b : r1.1.buildings = gB1.2.buildings := by rw [hr1]
    have hnil : fr1.1 = [] := by
      cases hx : fr1.1 with
      | nil => rfl
      | cons a t => rw [hx] at hempty; exact absurd hempty (by simp)
    have hnone : ∀ n ∈ names, resolveNameFull s0.pavilions gB1.1.id n = none := by
      have hx := hfound1.symm.trans hnil
      exact fun n hn => List.filterMap_eq_nil_iff.mp hx n hn
    have hb : (getOrCreateBuilding r1.1 (buildingNameFromContract r1.2 cn).1).1.id =
        gB1.1.id := by
      have hst : (buildingNameFromContract r1.2 cn).1 = bn := by
        rw [hbnd]
        exact buildingNameFromContract_fst r1.2 st0 cn
      rw [hst]
      have hstable := getOrCreateBuilding_stable s0 bn r1.1 (by rw [hr1b, hgB1])
      rw [hstable]
    exact core_pass2_empty r1.1 r1.2 tn inn cn po gB1.1.id hb
      (by
        intro n hn
        rw [hr1p]
        exact hnone n hn)
  · rw [if_neg hempty] at hr1
    set tp1 := tenantUpsertPhase gB1.2 fr1.2 tn inn with htp1
    set cp1 := contractUpsertPhase tp1.2.1 tp1.2.2 cn with hcp1
    have htpc1 : tp1.1 = (pass1Tenant s0 tn inn cn).1 := by
      rw [htp1, (tenantUpsertPhase_st_indep gB1.2 fr1.2 cstate0 tn inn).1, hgBc]
      rfl
    have htpc2 : tp1.2.1 = (pass1Tenant s0 tn inn cn).2.1 := by
      rw [htp1, (tenantUpsertPhase_st_indep gB1.2 fr1.2 cstate0 tn inn).2, hgBc]
      rfl
    have hcpc1 : cp1.1 = (pass1Contract s0 tn inn cn).1 := by
      rw [hcp1, (contractUpsertPhase_st_indep tp1.2.1 tp1.2.2 cstate0 cn).1, htpc2]
      rfl
    have hcpc2 : cp1.2.1 = (pass1Contract s0 tn inn cn).2.1 := by
      rw [hcp1, (contractUpsertPhase_st_indep tp1.2.1 tp1.2.2 cstate0 cn).2, htpc2]
      rfl
    have hparts := applyPavilionUpdates_parts gB1.1.id tp1.1.id cp1.1.id fr1.1
      cp1.2.1 cp1.2.2
    have hcpparts := contractUpsertPhase_parts tp1.2.1 tp1.2.2 cn
    have htpparts := tenantUpsertPhase_parts gB1.2 fr1.2 tn inn
    have h1 : r1.1.buildings = (pass1Building s0 cn).2.buildings := by
      rw [hr1]
      rw [hparts.1]
      rw [← hcp1] at hcpparts
      rw [hcpparts.2.1]
      rw [← htp1] at htpparts
      rw [htpparts.2.1, hgBc]
    have h4 : r1.1.tenants = (pass1Tenant s0 tn inn cn).2.1.tenants := by
      rw [hr1, hparts.2.1]
      rw [← hcp1] at hcpparts
      rw [hcpparts.2.2.1, htpc2]
    have h5 : r1.1.contracts = (pass1Contract s0 tn inn cn).2.1.contracts := by
      rw [hr1, hparts.2.2, hcpc2]
    have hmem1 : ∀ f ∈ fr1.1, f ∈ s0.pavilions := by
      intro f hf
      rw [hfound1] at hf
      rcases List.mem_filterMap.mp hf with ⟨n, _, hres⟩
      exact resolveNameFull_mem _ _ _ _ hres
    have hbase : cp1.2.1.pavilions = s0.pavilions.map
        (fun p => tfMark (fun _ => false) gB1.1.id tp1.1.id cp1.1.id p) := by
      rw [← hcp1] at hcpparts
      rw [← htp1] at htpparts
      rw [hcpparts.1, htpparts.1, hA.1]
      rw [map_congr_mem s0.pavilions _ (fun p => p)
        (fun p _ => tfMark_false gB1.1.id tp1.1.id cp1.1.id p)]
      rw [List.map_id']
    have h2pre : r1.1.pavilions = s0.pavilions.map
        (fun p => tfMark (fun i => (fun _ => false) i ||
          (fr1.1.map (fun q => q.id)).contains i) gB1.1.id tp1.1.id cp1.1.id p) := by
      rw [hr1]
      exact applyPavilionUpdates_pavilions gB1.1.id tp1.1.id cp1.1.id fr1.1
        s0.pavilions cp1.2.1 cp1.2.2 (fun _ => false) hbase hmem1 hpav
    have h2 : r1.1.pavilions = s0.pavilions.map
        (fun p => tfMark (fun i => (fr1.1.map (fun q => q.id)).contains i)
          (pass1Building s0 cn).1.id (pass1Tenant s0 tn inn cn).1.id
          (pass1Contract s0 tn inn cn).1.id p) := by
      rw [h2pre, ← hgBc, ← htpc1, ← hcpc1]
      exact map_congr_mem _ _ _ fun p _ => by
        unfold tfMark
        dsimp only
        rw [Bool.false_or]
    have h3 : ∀ n ∈ expand_location_to_pavilion_names po, ∀ p,
        resolveNameFull s0.pavilions (pass1Building s0 cn).1.id n = some p →
        (fun i => (fr1.1.map (fun q => q.id)).contains i) p.id = true := by
      intro n hn p hres
      rw [← hgBc] at hres
      have hpmem : p ∈ fr1.1 := by
        rw [hfound1]
        exact List.mem_filterMap.mpr ⟨n, hn, hres⟩
      exact List.elem_iff.mpr (List.mem_map_of_mem (fun q => q.id) hpmem)
    exact core_pass2_noop s0 r1.1 r1.2 tn inn cn po
      (fun i => (fr1.1.map (fun q => q.id)).contains i) hten h1 h2 h3 h4 h5

/-- C3: roster import is idempotent per row: processing the identical roster
row a second time, against the store and stats state produced by the first
pass, performs no pavilion write (the pavilion list is unchanged) and does not
increment `pavilions_updated`, because for every resolved pavilion the write
and the counter increment happen only when at least one of the four fields
(building, tenant, contract, status=rented) differs from the pavilion's
current state.  Stated under distinctness of the store's pavilion ids and
tenant ids (primary-key uniqueness). -/
theorem roster_row_idempotent (s0 : Store) (st0 : CState) (row : CRow)
    (hpav : (s0.pavilions.map (fun p => p.id)).Nodup)
    (hten : (s0.tenants.map (fun t => t.id)).Nodup) :
    (processContractRow (processContractRow s0 st0 row).1
        (processContractRow s0 st0 row).2 row).1.pavilions =
      (processContractRow s0 st0 row).1.pavilions ∧
    (processContractRow (processContractRow s0 st0 row).1
        (processContractRow s0 st0 row).2 row).2.pavilions_updated =
      (processContractRow s0 st0 row).2.pavilions_updated := by
  by_cases hskip : pyStrip row.kontragent = "" ∨ pyStrip row.dogovor = "" ∨
      pyStrip row.obj = ""
  · unfold processContractRow
    dsimp only
    simp only [if_pos hskip]
    refine ⟨?_, ?_⟩ <;> first
      | rfl
      | trivial
  · unfold processContractRow
    dsimp only
    simp only [if_neg hskip]
    exact processContractRowCore_idempotent s0 st0 (pyStrip row.kontragent)
      (pyStrip row.inn) (pyStrip row.dogovor) (pyStrip row.obj) hpav hten

theorem roster_row_idempotent_witness :
    ((c1Store.pavilions.map (fun p => p.id)).Nodup ∧
      (c1Store.tenants.map (fun t => t.id)).Nodup) ∧
    ((processContractRow (processContractRow c1Store cstate0 c3Row).1
        (processContractRow c1Store cstate0 c3Row).2 c3Row).1.pavilions =
      (processContractRow c1Store cstate0 c3Row).1.pavilions ∧
    (processContractRow (processContractRow c1Store cstate0 c3Row).1
        (processContractRow c1Store cstate0 c3Row).2 c3Row).2.pavilions_updated =
      (processContractRow c1Store cstate0 c3Row).2.pavilions_updated) :=
  ⟨⟨by decide, by decide⟩,
    roster_row_idempotent c1Store cstate0 c3Row (by decide) (by decide)⟩

end MarketSM
